import Mathlib

/-!
Verification of the Celeste autonomous agent runtime against its
specification.  The Go source is shallowly embedded: pure functions become
Lean functions, the turn loop becomes a step function over an explicit
`RunState`, machine integers become `Int`/`Nat`, byte strings become
`String` (one `Char` per byte, which is exact for the ASCII data the
claims exercise), and fallible operations return `Except`/`Option`.
Wall-clock timestamps are modelled as `Nat` and supplied explicitly where
the code stamps them.
-/

namespace Celeste

/-! ## Go string primitives

Embeddings of the `strings` stdlib functions the agent code uses.  They
operate on `String.data` so that list lemmas apply. -/

/-- Embeds `unicode.IsSpace` restricted to the ASCII space characters that
occur in the data under verification. -/
def isGoSpace (c : Char) : Bool :=
  c = ' ' || c = '\t' || c = '\n' || c = '\r'

/-- Drop leading whitespace from a character list. -/
def dropLeadingWS : List Char → List Char
  | [] => []
  | c :: rest => if isGoSpace c then dropLeadingWS rest else c :: rest

/-- Embeds `strings.TrimSpace`: removes leading and trailing whitespace. -/
def goTrimSpace (s : String) : String :=
  ⟨(dropLeadingWS (dropLeadingWS s.data).reverse).reverse⟩

/-- Embeds `strings.ToUpper` (ASCII case mapping). -/
def goToUpper (s : String) : String := ⟨s.data.map Char.toUpper⟩

/-- Embeds `strings.ToLower` (ASCII case mapping). -/
def goToLower (s : String) : String := ⟨s.data.map Char.toLower⟩

/-- Worker for `goContains`: does `needle` occur as a contiguous
sub-list of the haystack? -/
def containsAux (needle : List Char) : List Char → Bool
  | [] => needle.isEmpty
  | c :: rest => needle.isPrefixOf (c :: rest) || containsAux needle rest

/-- Embeds `strings.Contains`: `sub` occurs as a contiguous substring. -/
def goContains (s sub : String) : Bool := containsAux sub.data s.data

/-- Embeds `strings.HasPrefix`. -/
def goStartsWith (s pre : String) : Bool := pre.data.isPrefixOf s.data

/-- Embeds the quoting done by `fmt.Sprintf("%q", ·)` and by
`encoding/json` on the printable ASCII strings under verification:
backslash and double quote are escaped, other characters pass through. -/
def goQuoteChar (c : Char) : List Char :=
  if c = '"' then ['\\', '"']
  else if c = '\\' then ['\\', '\\']
  else [c]

/-- Embeds `fmt.Sprintf("%q", s)` (printable-ASCII fragment). -/
def goQuote (s : String) : String :=
  ⟨'"' :: (s.data.flatMap goQuoteChar) ++ ['"']⟩

/-! ## Data model (src/cmd/celeste/agent/types.go) -/

def StatusRunning : String := "running"
def StatusCompleted : String := "completed"
def StatusFailed : String := "failed"
def StatusMaxTurnsReached : String := "max_turns_reached"
def StatusNoProgressStopped : String := "no_progress_stopped"

/-- `llm.ToolCallResult`: one tool invocation request from the provider. -/
structure ToolCallResult where
  id : String
  name : String
  arguments : String
deriving Repr, DecidableEq

/-- `tui.ToolCallInfo` as used by `convertToolCalls`. -/
structure ToolCallInfo where
  id : String
  name : String
  arguments : String
deriving Repr, DecidableEq

/-- Modelled from the spec: `tui.ChatMessage` (the tui package's message
type is not under src/; its fields are taken from §3 of the spec and from
every construction site in the agent package: role, content, ordered tool
calls, tool_call_id, tool name, timestamp). -/
structure ChatMessage where
  role : String
  content : String
  toolCalls : List ToolCallInfo
  toolCallID : String
  name : String
  timestamp : Nat
deriving Repr, DecidableEq

/-- `agent.Options` (durations in nanoseconds, as Go's `time.Duration`). -/
structure Options where
  workspace : String
  maxTurns : Int
  maxToolCallsPerTurn : Int
  maxConsecutiveNoToolTurns : Int
  requestTimeout : Int
  toolTimeout : Int
  requireCompletionMarker : Bool
  completionMarker : String
  disableCheckpoints : Bool
  verbose : Bool
deriving Repr, DecidableEq

/-- `agent.DefaultOptions`. -/
def DefaultOptions : Options :=
  { workspace := ""
    maxTurns := 12
    maxToolCallsPerTurn := 8
    maxConsecutiveNoToolTurns := 3
    requestTimeout := 90 * 1000000000
    toolTimeout := 45 * 1000000000
    requireCompletionMarker := true
    completionMarker := "TASK_COMPLETE:"
    disableCheckpoints := false
    verbose := true }

/-- `agent.Step`: one audit-trail entry. -/
structure Step where
  turn : Int
  type : String
  name : String
  content : String
  toolCall : String
  timestamp : Nat
deriving Repr, DecidableEq

/-- `agent.RunState`: the persisted run snapshot. -/
structure RunState where
  runID : String
  goal : String
  status : String
  createdAt : Nat
  updatedAt : Nat
  completedAt : Option Nat
  turn : Int
  consecutiveNoToolTurns : Int
  toolCallCount : Int
  messages : List ChatMessage
  steps : List Step
  lastAssistantResponse : String
  error : String
  options : Options
deriving Repr, DecidableEq

/-! ## Eval harness (src/cmd/celeste/agent, eval file) -/

/-- `agent.EvalCase`. -/
structure EvalCase where
  name : String
  goal : String
  maxTurns : Int
  mustContain : List String
  mustNotContain : List String
deriving Repr, DecidableEq

/-- Case-insensitive substring check used by `evaluateCase`:
`strings.Contains(strings.ToLower(text), strings.ToLower(needle))`. -/
def containsCI (text needle : String) : Bool :=
  goContains (goToLower text) (goToLower needle)

/-- The `MustContain` loop of `evaluateCase`: first non-empty required
string that does not occur (case-insensitively) in the text, if any. -/
def firstMissingRequired (text : String) : List String → Option String
  | [] => none
  | r :: rest =>
    if r = "" then firstMissingRequired text rest
    else if !(containsCI text r) then some r
    else firstMissingRequired text rest

/-- The `MustNotContain` loop of `evaluateCase`: first non-empty banned
string that does occur (case-insensitively) in the text, if any. -/
def firstForbiddenPresent (text : String) : List String → Option String
  | [] => none
  | b :: rest =>
    if b = "" then firstForbiddenPresent text rest
    else if containsCI text b then some b
    else firstForbiddenPresent text rest

/-- `agent.evaluateCase` (checkpoint_test.go's neighbour file, lines
135-156): scores one eval case from the final status and trimmed last
assistant response. -/
def evaluateCase (c : EvalCase) (status finalText : String) : Bool × String :=
  if status ≠ StatusCompleted then (false, "status=" ++ status)
  else
    match firstMissingRequired finalText c.mustContain with
    | some r => (false, "missing required text: " ++ goQuote r)
    | none =>
      match firstForbiddenPresent finalText c.mustNotContain with
      | some b => (false, "contains forbidden text: " ++ goQuote b)
      | none => (true, "ok")

/-! ## JSON values and `encoding/json` serialization

Tool results and checkpoints are serialized with `encoding/json`.  `Jv`
models the Go values that flow through `interface{}` result payloads. -/

/-- A JSON value as produced by the agent's handlers and checkpoints. -/
inductive Jv where
  | null : Jv
  | bool : Bool → Jv
  | num : Int → Jv
  | str : String → Jv
  | arr : List Jv → Jv
  | obj : List (String × Jv) → Jv
deriving Repr

mutual

/-- Embeds `json.Marshal` on the printable-ASCII values under
verification.  Go marshals maps with keys in sorted order; object field
lists in this development are constructed already sorted where they model
Go maps, and in struct-field order where they model Go structs. -/
def marshalJv : Jv → String
  | .null => "null"
  | .bool true => "true"
  | .bool false => "false"
  | .num n => toString n
  | .str s => goQuote s
  | .arr xs => "[" ++ marshalArr xs ++ "]"
  | .obj fs => "\x7b" ++ marshalObj fs ++ "\x7d"

/-- Comma-joined marshalling of array elements. -/
def marshalArr : List Jv → String
  | [] => ""
  | [x] => marshalJv x
  | x :: y :: rest => marshalJv x ++ "," ++ marshalArr (y :: rest)

/-- Comma-joined marshalling of object fields. -/
def marshalObj : List (String × Jv) → String
  | [] => ""
  | [(k, v)] => goQuote k ++ ":" ++ marshalJv v
  | (k, v) :: f :: rest => goQuote k ++ ":" ++ marshalJv v ++ "," ++ marshalObj (f :: rest)

end

/-! ## `json.Valid` (encoding/json)

A recursive-descent validator for RFC 8259 JSON, embedding the grammar
that Go's `json.Valid` checks.  Recursion is bounded by explicit fuel;
`jsonValid` supplies fuel larger than the input length, which bounds the
nesting depth. -/

/-- Skip JSON insignificant whitespace. -/
def jSkipWS : List Char → List Char
  | [] => []
  | c :: rest =>
    if c = ' ' || c = '\t' || c = '\n' || c = '\r' then jSkipWS rest else c :: rest

/-- Hexadecimal digit test for `\uXXXX` escapes. -/
def jIsHex (c : Char) : Bool :=
  c.isDigit || ('a' ≤ c && c ≤ 'f') || ('A' ≤ c && c ≤ 'F')

/-- Scan the remainder of a JSON string (the opening quote already
consumed); returns the input after the closing quote. -/
def jString : Nat → List Char → Option (List Char)
  | 0, _ => none
  | _ + 1, [] => none
  | fuel + 1, c :: rest =>
    if c = '"' then some rest
    else if c = '\\' then
      match rest with
      | [] => none
      | e :: rest' =>
        if e = 'u' then
          match rest' with
          | a :: b :: c2 :: d :: rest'' =>
            if jIsHex a && jIsHex b && jIsHex c2 && jIsHex d then jString fuel rest'' else none
          | _ => none
        else if e = '"' || e = '\\' || e = '/' || e = 'b' || e = 'f' || e = 'n' ||
                e = 'r' || e = 't' then jString fuel rest'
        else none
    else if c.toNat < 32 then none
    else jString fuel rest

/-- Drop a (possibly empty) run of decimal digits. -/
def jDropDigits : List Char → List Char
  | [] => []
  | c :: rest => if c.isDigit then jDropDigits rest else c :: rest

/-- Scan the fraction and exponent part of a JSON number. -/
def jFracExp (s : List Char) : Option (List Char) :=
  let afterFrac : Option (List Char) :=
    match s with
    | '.' :: r =>
      match r with
      | c :: r' => if c.isDigit then some (jDropDigits r') else none
      | [] => none
    | _ => some s
  match afterFrac with
  | none => none
  | some s2 =>
    match s2 with
    | e :: r =>
      if e = 'e' || e = 'E' then
        let r2 := match r with
          | '+' :: r' => r'
          | '-' :: r' => r'
          | _ => r
        match r2 with
        | c :: r' => if c.isDigit then some (jDropDigits r') else none
        | [] => none
      else some s2
    | [] => some s2

/-- Scan a JSON number (RFC 8259: no leading zeros, optional fraction and
exponent). -/
def jNumber (s : List Char) : Option (List Char) :=
  let s1 := match s with
    | '-' :: r => r
    | _ => s
  match s1 with
  | [] => none
  | '0' :: r => jFracExp r
  | c :: r => if c.isDigit then jFracExp (jDropDigits r) else none

/-- Match a literal keyword tail (`rue`, `alse`, `ull`). -/
def jLiteral : List Char → List Char → Option (List Char)
  | [], s => some s
  | _ :: _, [] => none
  | l :: ls, c :: rest => if l = c then jLiteral ls rest else none

/-- The mutually recursive productions of the JSON grammar, folded into
one scanner so that recursion is structural on the fuel. -/
inductive JMode where
  | value
  | members
  | elements
deriving Repr, DecidableEq

/-- Scan one production of the JSON grammar, returning the unconsumed
input: a complete value; one or more `"key": value` members up to and
including the closing `}`; one or more array elements up to and
including the closing `]`.  The empty-object and empty-array checks are
inlined at the opening bracket. -/
def jScan : JMode → Nat → List Char → Option (List Char)
  | _, 0, _ => none
  | .value, fuel + 1, s =>
    (match jSkipWS s with
     | [] => none
     | c :: rest =>
       if c = 't' then jLiteral ['r', 'u', 'e'] rest
       else if c = 'f' then jLiteral ['a', 'l', 's', 'e'] rest
       else if c = 'n' then jLiteral ['u', 'l', 'l'] rest
       else if c = '"' then jString (rest.length + 1) rest
       else if c = '{' then
         (match jSkipWS rest with
          | '}' :: rest' => some rest'
          | s' => jScan .members fuel s')
       else if c = '[' then
         (match jSkipWS rest with
          | ']' :: rest' => some rest'
          | s' => jScan .elements fuel s')
       else if c = '-' || c.isDigit then jNumber (c :: rest)
       else none)
  | .members, fuel + 1, s =>
    (match jSkipWS s with
     | '"' :: rest =>
       (match jString (rest.length + 1) rest with
        | none => none
        | some afterKey =>
          (match jSkipWS afterKey with
           | ':' :: afterColon =>
             (match jScan .value fuel afterColon with
              | none => none
              | some afterVal =>
                (match jSkipWS afterVal with
                 | ',' :: next => jScan .members fuel next
                 | '}' :: rest' => some rest'
                 | _ => none))
           | _ => none))
     | _ => none)
  | .elements, fuel + 1, s =>
    (match jScan .value fuel s with
     | none => none
     | some afterVal =>
       (match jSkipWS afterVal with
        | ',' :: next => jScan .elements fuel next
        | ']' :: rest' => some rest'
        | _ => none))

/-- Embeds `json.Valid`: the whole input is exactly one JSON value plus
whitespace.  The fuel bounds the nesting depth by the input length. -/
def jsonValid (s : String) : Bool :=
  match jScan .value (s.data.length + 1) s.data with
  | none => false
  | some rest => (jSkipWS rest).isEmpty

/-! ## Tool execution (src/unnamed/part_006: executeToolCall,
formatToolResult, truncateForStep) -/

/-- `skills.ExecutionResult` as consumed by `formatToolResult`.  The tui
and skills packages are not under src/; the three consumed fields
(`Success`, `Error`, `Result`) are taken from the consuming code. -/
structure ExecutionResult where
  success : Bool
  error : String
  result : Jv
deriving Repr

/-- The `(execution, err)` pair returned by `client.ExecuteSkill`:
a non-nil error, a nil execution, or an execution result. -/
inductive SkillOutcome where
  | errored : String → SkillOutcome
  | nilExecution : SkillOutcome
  | returned : ExecutionResult → SkillOutcome
deriving Repr

/-- The tool-dispatch capability available to the turn loop: one skill
executor keyed by tool name and raw argument JSON. -/
structure ToolEnv where
  exec : String → String → SkillOutcome

/-- The error payload built with `json.Marshal` of a Go map (keys sorted:
error, message, tool). -/
def errorPayload (toolName msg : String) : String :=
  marshalJv (Jv.obj [("error", Jv.bool true), ("message", Jv.str msg), ("tool", Jv.str toolName)])

/-- The payload built by `fmt.Sprintf` for unparseable tool arguments
(part_006 line 278); note the literal field order and spacing. -/
def invalidArgsPayload (toolName : String) : String :=
  "\x7b\"error\": true, \"message\": \"invalid tool arguments JSON\", \"tool\": " ++
    goQuote toolName ++ "\x7d"

/-- `agent.formatToolResult` (part_006 lines 364-405).  The marshal-error
branch cannot arise in this model, where every `Jv` serializes. -/
def formatToolResult (toolName : String) : SkillOutcome → String
  | .errored msg => errorPayload toolName msg
  | .nilExecution => errorPayload toolName "nil execution result"
  | .returned e =>
    if e.success = false then errorPayload toolName e.error
    else
      match e.result with
      | .str v => v
      | v => marshalJv v

/-- `agent.truncateForStep` (part_006 lines 407-413). -/
def truncateForStep (s : String) : String :=
  let s := goTrimSpace s
  if s.length > 200 then ⟨s.data.take 200⟩ ++ "..." else s

/-- `Runner.executeToolCall` (part_006 lines 265-300): validates the raw
argument JSON, dispatches to the skill executor only when it is valid,
and produces the Tool message and audit step. -/
def executeToolCall (env : ToolEnv) (turn : Int) (tc : ToolCallResult) : ChatMessage × Step :=
  let resultContent :=
    if !(jsonValid tc.arguments) then invalidArgsPayload tc.name
    else formatToolResult tc.name (env.exec tc.name tc.arguments)
  ({ role := "tool", content := resultContent, toolCalls := [], toolCallID := tc.id,
     name := tc.name, timestamp := 0 },
   { turn := turn, type := "tool", name := tc.name,
     content := truncateForStep resultContent, toolCall := tc.id, timestamp := 0 })

/-- The Tool message `executeToolCall` appends for a call. -/
def toolMessageOf (env : ToolEnv) (turn : Int) (tc : ToolCallResult) : ChatMessage :=
  (executeToolCall env turn tc).1

/-! ## Turn loop (src/unnamed/part_006: runState) -/

/-- `llm.ChatCompletionResult` as consumed by `runState`: assistant text
plus the provider's tool-call list. -/
structure ChatCompletionResult where
  content : String
  toolCalls : List ToolCallResult
deriving Repr

/-- `agent.isCompletionResponse` (part_006 lines 309-318). -/
def isCompletionResponse (content : String) (options : Options) : Bool :=
  let text := goTrimSpace content
  if text = "" then false
  else if options.completionMarker ≠ "" &&
          goContains (goToUpper text) (goToUpper options.completionMarker) then true
  else !options.requireCompletionMarker

/-- `agent.buildContinuePrompt` (part_006 lines 320-326). -/
def buildContinuePrompt (options : Options) : String :=
  let marker := if options.completionMarker = "" then "TASK_COMPLETE:" else options.completionMarker
  "Continue working toward the goal. Use tools when needed. If you are done, respond with '" ++
    marker ++ "' followed by final deliverables and validation notes."

/-- `agent.convertToolCalls` (part_006 lines 349-362); a nil and an empty
list coincide in this model. -/
def convertToolCalls (calls : List ToolCallResult) : List ToolCallInfo :=
  calls.map fun c => { id := c.id, name := c.name, arguments := c.arguments }

/-- `agent.completeState` (part_006 lines 302-307); `now` is the stamped
wall-clock value. -/
def completeState (now : Nat) (state : RunState) : RunState :=
  { state with status := StatusCompleted, completedAt := some now, updatedAt := now }

/-- `agent.NewRunState` (types.go lines 70-82); the generated run id and
the current time are passed explicitly. -/
def NewRunState (runID : String) (now : Nat) (goal : String) (options : Options) :
    RunState :=
  { runID := runID, goal := goal, status := StatusRunning, createdAt := now,
    updatedAt := now, completedAt := none, turn := 0, consecutiveNoToolTurns := 0,
    toolCallCount := 0, messages := [], steps := [], lastAssistantResponse := "",
    error := "", options := options }

/-- The per-call loop of `runState` (part_006 lines 245-249): execute
each dispatched call in order, appending one Tool message and one audit
step and bumping the call counter. -/
def dispatchToolCalls (env : ToolEnv) (tcs : List ToolCallResult) (s : RunState) :
    RunState :=
  tcs.foldl
    (fun st tc =>
      let r := executeToolCall env st.turn tc
      { st with messages := st.messages ++ [r.1], steps := st.steps ++ [r.2],
                toolCallCount := st.toolCallCount + 1 })
    s

/-- The Assistant message appended each turn (part_006 lines 188-194):
it carries the returned text and ALL returned tool calls. -/
def assistantMessage (content : String) (tcs : List ToolCallResult) : ChatMessage :=
  { role := "assistant", content := content, toolCalls := convertToolCalls tcs,
    toolCallID := "", name := "", timestamp := 0 }

/-- The assistant audit step appended each turn (part_006 lines
196-201). -/
def assistantStep (turn : Int) (content : String) : Step :=
  { turn := turn, type := "assistant", name := "", content := goTrimSpace content,
    toolCall := "", timestamp := 0 }

/-- Result of one iteration of the `for` loop in `runState`: either the
function returned, or the loop continues with the updated state. -/
inductive TurnOutcome where
  | finished : RunState → TurnOutcome
  | next : RunState → TurnOutcome
deriving Repr

/-- The run state carried by a `TurnOutcome`. -/
def TurnOutcome.state : TurnOutcome → RunState
  | .finished s => s
  | .next s => s

/-- One iteration of the turn loop (part_006 lines 170-253), entered with
`state.turn < state.options.maxTurns`.  `resp` is the outcome of the
provider call `SendMessageSync`; checkpoint writes do not alter the
in-memory state and timestamps are modelled as 0. -/
def runTurn (env : ToolEnv) (state : RunState) (resp : Except String ChatCompletionResult) :
    TurnOutcome :=
  let state := { state with turn := state.turn + 1, status := StatusRunning }
  match resp with
  | .error e =>
    .finished { state with status := StatusFailed, error := e, updatedAt := 0 }
  | .ok result =>
    let state :=
      { state with
        messages := state.messages ++ [assistantMessage result.content result.toolCalls],
        lastAssistantResponse := goTrimSpace result.content,
        steps := state.steps ++ [assistantStep state.turn result.content] }
    if result.toolCalls.isEmpty then
      let state := { state with consecutiveNoToolTurns := state.consecutiveNoToolTurns + 1 }
      if isCompletionResponse state.lastAssistantResponse state.options then
        .finished (completeState 0 state)
      else if state.consecutiveNoToolTurns ≥ state.options.maxConsecutiveNoToolTurns then
        .finished { state with status := StatusNoProgressStopped, completedAt := some 0 }
      else
        .next { state with
          messages := state.messages ++
            [{ role := "user", content := buildContinuePrompt state.options, toolCalls := [],
               toolCallID := "", name := "", timestamp := 0 }] }
    else
      let state := { state with consecutiveNoToolTurns := 0 }
      let toolCalls := result.toolCalls.take state.options.maxToolCallsPerTurn.toNat
      .next (dispatchToolCalls env toolCalls state)

/-- The `for state.Turn < MaxTurns` loop of `runState`, driven by a
finite script of provider responses (one per executed turn).  An empty
script with turns remaining models an observation cut mid-run and
returns the in-flight state. -/
def runLoop (env : ToolEnv) (state : RunState) :
    List (Except String ChatCompletionResult) → RunState
  | [] =>
    if state.turn < state.options.maxTurns then state
    else { state with status := StatusMaxTurnsReached, completedAt := some 0 }
  | r :: rest =>
    if state.turn < state.options.maxTurns then
      match runTurn env state r with
      | .finished s => s
      | .next s => runLoop env s rest
    else { state with status := StatusMaxTurnsReached, completedAt := some 0 }

/-! ## Go path functions (path/filepath, Unix)

Paths are strings; `filepath.Clean` and `filepath.Rel` are embedded at
the level of path components (the maximal `/`-free non-empty substrings),
which is the structure Go's string-level algorithms compute on. -/

/-- Embeds `filepath.IsAbs` (Unix): the path begins with `/`. -/
def isAbs (s : String) : Bool :=
  s.data.head? == some '/' 

/-- Worker for `splitComponents`: split on `/`, dropping empty pieces;
`cur` holds the current component reversed. -/
def splitCompsAux (cur : List Char) : List Char → List String
  | [] => if cur.isEmpty then [] else [⟨cur.reverse⟩]
  | c :: rest =>
    if c = '/' then
      if cur.isEmpty then splitCompsAux [] rest
      else ⟨cur.reverse⟩ :: splitCompsAux [] rest
    else splitCompsAux (c :: cur) rest

/-- The path components of a string: maximal non-empty `/`-free runs. -/
def splitComponents (s : String) : List String := splitCompsAux [] s.data

/-- Worker for `cleanParts`, mirroring the element loop of
`filepath.Clean`: `.` is dropped; `..` pops a component, is dropped at
the root when `rooted`, and accumulates otherwise; `out` holds the
output stack reversed. -/
def cleanAux (rooted : Bool) : List String → List String → List String
  | out, [] => out.reverse
  | out, c :: rest =>
    if c = "." then cleanAux rooted out rest
    else if c = ".." then
      match out with
      | [] => if rooted then cleanAux rooted [] rest else cleanAux rooted [".."] rest
      | top :: out' =>
        if top = ".." then cleanAux rooted (".." :: top :: out') rest
        else cleanAux rooted out' rest
    else cleanAux rooted (c :: out) rest

/-- The cleaned component list of a path with the given rootedness. -/
def cleanParts (rooted : Bool) (comps : List String) : List String :=
  cleanAux rooted [] comps

/-- Join components with `/` separators. -/
def joinComps : List String → String
  | [] => ""
  | [c] => c
  | c :: d :: rest => c ++ "/" ++ joinComps (d :: rest)

/-- Render a cleaned component list back to a path string, as
`filepath.Clean` prints it. -/
def renderPath (rooted : Bool) (comps : List String) : String :=
  if rooted then "/" ++ joinComps comps
  else if comps.isEmpty then "." else joinComps comps

/-- Embeds `filepath.Clean` (Unix). -/
def clean (path : String) : String :=
  renderPath (isAbs path) (cleanParts (isAbs path) (splitComponents path))

/-- Embeds `filepath.Join` (Unix) for two elements: non-empty elements
joined by `/`, then cleaned. -/
def goJoin (a b : String) : String :=
  if a = "" && b = "" then ""
  else if a = "" then clean b
  else if b = "" then clean a
  else clean (a ++ "/" ++ b)

/-- Strip the common leading components of two component lists. -/
def dropCommonPrefix : List String → List String → List String × List String
  | [], ts => ([], ts)
  | b :: bs, [] => (b :: bs, [])
  | b :: bs, t :: ts => if b = t then dropCommonPrefix bs ts else (b :: bs, t :: ts)

/-- Embeds `filepath.Rel` (Unix), computed on the cleaned component
lists of both arguments exactly as Go's string-level loop does: equal
cleaned paths give `.`, differing rootedness or a remaining leading `..`
in the base is an error, and otherwise the result is one `..` per
remaining base component followed by the remaining target components. -/
def goRel (basepath targpath : String) : Except String String :=
  let bAbs := isAbs basepath
  let tAbs := isAbs targpath
  let b := cleanParts bAbs (splitComponents basepath)
  let t := cleanParts tAbs (splitComponents targpath)
  if bAbs = tAbs ∧ b = t then .ok "."
  else if bAbs ≠ tAbs then
    .error ("Rel: can't make " ++ targpath ++ " relative to " ++ basepath)
  else
    let p := dropCommonPrefix b t
    if p.1.head? = some ".." then
      .error ("Rel: can't make " ++ targpath ++ " relative to " ++ basepath)
    else if p.1.isEmpty then .ok (joinComps p.2)
    else .ok (joinComps (List.replicate p.1.length ".." ++ p.2))

/-! ## Workspace development tools (src/unnamed/part_003)

Filesystem state is an association list from absolute path to file
contents; `getStringArg`/`getIntArg`/`getBoolArg` coercions are modelled
by passing the extracted argument values (`Option` for absent keys with
the handler's fallback applied via `getD`). -/

/-- The candidate target computed by `resolveWorkspacePath` (part_003
lines 512-517): `Clean(Join(workspace, input))`, or `Clean(input)` for
an absolute input (`Join` cleans its result). -/
def workspaceCandidate (workspace input0 : String) : String :=
  let input := if input0 = "" then "." else input0
  if isAbs input then clean input else goJoin (clean workspace) input

/-- `agent.resolveWorkspacePath` (part_003 lines 506-527). -/
def resolveWorkspacePath (workspace input0 : String) : Except String String :=
  let input := if input0 = "" then "." else input0
  let candidate := workspaceCandidate workspace input0
  match goRel (clean workspace) candidate with
  | .error e => .error e
  | .ok rel =>
    if rel = ".." || goStartsWith rel "../" then
      .error ("path escapes workspace: " ++ input)
    else .ok candidate

/-- `maxReadBytes` (part_003 line 19). -/
def maxReadBytes : Nat := 200000

/-- `maxCommandOutput` (part_003 line 20). -/
def maxCommandOutput : Nat := 12000

/-- Read a file from the modelled filesystem (`os.ReadFile`). -/
def fsRead (fs : List (String × String)) (p : String) : Option String :=
  (fs.find? (fun e => e.1 = p)).map (fun e => e.2)

/-- Worker for `goSplitNl`: split on `'\n'`, keeping empty pieces. -/
def splitNlAux (cur : List Char) : List Char → List String
  | [] => [⟨cur.reverse⟩]
  | c :: rest =>
    if c = '\n' then ⟨cur.reverse⟩ :: splitNlAux [] rest
    else splitNlAux (c :: cur) rest

/-- Embeds `strings.Split(s, "\n")`: always at least one piece. -/
def goSplitNl (s : String) : List String := splitNlAux [] s.data

/-- Embeds `strings.Join(lines, "\n")`. -/
def joinNl : List String → String
  | [] => ""
  | [l] => l
  | l :: m :: rest => l ++ "\n" ++ joinNl (m :: rest)

/-- The result object of `dev_read_file`. -/
structure ReadResult where
  path : String
  workspace : String
  startLine : Int
  endLine : Int
  totalLines : Int
  truncated : Bool
  content : String
deriving Repr, DecidableEq

/-- The byte cap of `devReadFileHandler` (part_003 lines 277-281): at
most `maxReadBytes` bytes of the file are kept. -/
def readKept (data : String) : String :=
  if data.data.length > maxReadBytes then ⟨data.data.take maxReadBytes⟩ else data

/-- The `end_line` clamp of `devReadFileHandler` (part_003 lines 266,
287-289): default 0, then any non-positive or too-large value becomes
the last line. -/
def readEndLine (endArg : Option Int) (totalLines : Int) : Int :=
  if endArg.getD 0 ≤ 0 || endArg.getD 0 > totalLines then totalLines
  else endArg.getD 0

/-- The first `start_line` clamp of `devReadFileHandler` (part_003
lines 262-265): default 1, floored at 1. -/
def readStartFloor (startArg : Option Int) : Int :=
  if startArg.getD 1 < 1 then 1 else startArg.getD 1

/-- The second `start_line` clamp (part_003 lines 290-292): capped at
the clamped end line. -/
def readStartLine (startArg : Option Int) (endLine : Int) : Int :=
  if readStartFloor startArg > endLine then endLine else readStartFloor startArg

/-- `agent.devReadFileHandler` (part_003 lines 257-308). -/
def devReadFileHandler (workspace : String) (fs : List (String × String))
    (path : String) (startArg endArg : Option Int) : Except String ReadResult :=
  if path = "" then .error "path is required"
  else
    match resolveWorkspacePath workspace path with
    | .error e => .error e
    | .ok target =>
      match fsRead fs target with
      | none => .error ("open " ++ target ++ ": no such file or directory")
      | some data =>
        let truncated := decide (data.data.length > maxReadBytes)
        let data := readKept data
        let lines := goSplitNl data
        let totalLines : Int := lines.length
        let endLine := readEndLine endArg totalLines
        let startLine := readStartLine startArg endLine
        let selected :=
          if totalLines > 0 then
            joinNl ((lines.drop (startLine - 1).toNat).take (endLine - startLine + 1).toNat)
          else ""
        .ok { path := path, workspace := workspace, startLine := startLine,
              endLine := endLine, totalLines := totalLines, truncated := truncated,
              content := selected }

/-- The result object of `dev_write_file`. -/
structure WriteResult where
  path : String
  workspace : String
  bytesWritten : Int
  append : Bool
deriving Repr, DecidableEq

/-- `agent.devWriteFileHandler` (part_003 lines 310-352): overwrite or
append (`O_APPEND` creates the file when missing); returns the result
and the updated filesystem. -/
def devWriteFileHandler (workspace : String) (fs : List (String × String))
    (path content : String) (appendMode : Bool) :
    Except String WriteResult × List (String × String) :=
  if path = "" then (.error "path is required", fs)
  else
    match resolveWorkspacePath workspace path with
    | .error e => (.error e, fs)
    | .ok target =>
      let existing := if appendMode then (fsRead fs target).getD "" else ""
      let newContent := existing ++ content
      (.ok { path := path, workspace := workspace,
             bytesWritten := (content.data.length : Int), append := appendMode },
       (target, newContent) :: fs.filter (fun e => e.1 ≠ target))

/-- The observable outcome of `exec.CommandContext("sh", "-lc", command)`
run with the effective timeout: combined output captured so far, the
`ProcessState` exit code when one exists, the `CombinedOutput` error if
any, and whether the context deadline fired. -/
structure CmdOutcome where
  output : String
  hasProcessState : Bool
  processExitCode : Int
  runError : Option String
  timedOut : Bool

/-- The `timeout_seconds` clamp of `devRunCommandHandler` (part_003
lines 441-447): default 20, hard cap 300. -/
def effectiveCommandTimeout (timeoutArg : Option Int) : Int :=
  let timeoutSeconds := timeoutArg.getD 20
  let timeoutSeconds := if timeoutSeconds ≤ 0 then 20 else timeoutSeconds
  if timeoutSeconds > 300 then 300 else timeoutSeconds

/-- `agent.devRunCommandHandler` (part_003 lines 436-481).  `runCmd`
supplies the abstract execution outcome as a function of the effective
timeout.  Result-object fields are listed in the sorted key order in
which `json.Marshal` serializes a Go map. -/
def devRunCommandHandler (workspace command : String) (timeoutArg : Option Int)
    (runCmd : Int → CmdOutcome) : Except String Jv :=
  if goTrimSpace command = "" then .error "command is required"
  else
    let o := runCmd (effectiveCommandTimeout timeoutArg)
    let outputStr := o.output
    let truncated := decide (outputStr.data.length > maxCommandOutput)
    let outputStr := if outputStr.data.length > maxCommandOutput
      then (⟨outputStr.data.take maxCommandOutput⟩ : String) else outputStr
    let exitCode := if o.hasProcessState then o.processExitCode else 0
    .ok (Jv.obj
      ([("command", Jv.str command)] ++
       (match o.runError with
        | some e => [("error", Jv.str e)]
        | none => []) ++
       [("exit_code", Jv.num exitCode), ("output", Jv.str outputStr),
        ("timed_out", Jv.bool o.timedOut), ("truncated", Jv.bool truncated),
        ("workspace", Jv.str workspace)]))

/-- Modelled from the spec: the skills registry (`skills.Registry`, not
under src/) wraps a handler's `(result, error)` pair into the
`ExecutionResult` consumed by `formatToolResult`; per §4.3 `Execute`
runs the handler, and a handler error surfaces as an unsuccessful
execution. -/
def registryOutcome (handlerResult : Except String Jv) : SkillOutcome :=
  match handlerResult with
  | .error e => .returned { success := false, error := e, result := Jv.null }
  | .ok v => .returned { success := true, error := "", result := v }

/-! ## Streaming tool-call accumulation (src/unnamed/part_011,
SendMessageStream, lines 689-703) -/

/-- `xAIToolCall` as accumulated across stream deltas: id plus function
name and raw arguments. -/
structure XAIToolCall where
  id : String
  fnName : String
  fnArgs : String
deriving Repr, DecidableEq

/-- The update-or-append step of the accumulation loop: the first entry
with a matching id is replaced wholesale, otherwise the call is
appended. -/
def updateToolCall : List XAIToolCall → XAIToolCall → List XAIToolCall
  | [], tc => [tc]
  | x :: rest, tc => if x.id = tc.id then tc :: rest else x :: updateToolCall rest tc

/-- The accumulated tool-call list after processing all stream deltas in
order. -/
def accumToolCalls (deltas : List XAIToolCall) : List XAIToolCall :=
  deltas.foldl updateToolCall []

/-- The conversion to `ToolCallResult` performed on the finish chunk
(part_011 lines 708-717), preserving order and fields. -/
def convertStreamToolCalls (calls : List XAIToolCall) : List ToolCallResult :=
  calls.map fun tc => { id := tc.id, name := tc.fnName, arguments := tc.fnArgs }

/-! ## Checkpoint store (src/unnamed/part_004)

`Save` serializes a `RunState` with `encoding/json` into a file named
`<run_id>.json`; the store is modelled as an association list from run id
to the stored JSON value.  Encoders follow the struct tags in types.go
(field order, `omitempty`); decoders follow `json.Unmarshal` (fields
matched by name, missing fields left at their zero values, mismatched
types rejected).  Timestamps are integers in this model. -/

/-- Look up an object field by name (`json.Unmarshal` name matching). -/
def getField (fields : List (String × Jv)) (name : String) : Option Jv :=
  (fields.find? (fun f => f.1 = name)).map (fun f => f.2)

/-- Decode a string field; a missing field is the zero value `""`. -/
def decStrField (fields : List (String × Jv)) (name : String) : Option String :=
  match getField fields name with
  | none => some ""
  | some (.str s) => some s
  | some _ => none

/-- Decode an integer field; a missing field is the zero value `0`. -/
def decIntField (fields : List (String × Jv)) (name : String) : Option Int :=
  match getField fields name with
  | none => some 0
  | some (.num n) => some n
  | some _ => none

/-- Decode a non-negative integer (timestamp) field. -/
def decNatField (fields : List (String × Jv)) (name : String) : Option Nat :=
  match getField fields name with
  | none => some 0
  | some (.num n) => if n < 0 then none else some n.toNat
  | some _ => none

/-- Decode an optional (pointer) timestamp field. -/
def decOptNatField (fields : List (String × Jv)) (name : String) : Option (Option Nat) :=
  match getField fields name with
  | none => some none
  | some (.num n) => if n < 0 then none else some (some n.toNat)
  | some _ => none

/-- Decode a boolean field; a missing field is the zero value `false`. -/
def decBoolField (fields : List (String × Jv)) (name : String) : Option Bool :=
  match getField fields name with
  | none => some false
  | some (.bool b) => some b
  | some _ => none

/-- Decode every element of a JSON array. -/
def decodeList (dec : Jv → Option α) : List Jv → Option (List α)
  | [] => some []
  | x :: rest =>
    match dec x with
    | none => none
    | some v =>
      match decodeList dec rest with
      | none => none
      | some vs => some (v :: vs)

/-- Encode a `ToolCallInfo` (modelled from the spec, as the tui package
is not under src/: id, tool name, raw argument JSON string). -/
def encodeToolCallInfo (c : ToolCallInfo) : Jv :=
  .obj [("id", .str c.id), ("name", .str c.name), ("arguments", .str c.arguments)]

/-- Decode a `ToolCallInfo`. -/
def decodeToolCallInfo (j : Jv) : Option ToolCallInfo :=
  match j with
  | .obj fields =>
    match decStrField fields "id", decStrField fields "name",
          decStrField fields "arguments" with
    | some i, some n, some a => some { id := i, name := n, arguments := a }
    | _, _, _ => none
  | _ => none

/-- Encode a `ChatMessage` (modelled from the spec, as the tui package is
not under src/: role, content, tool calls, tool_call_id, tool name,
timestamp; every field serialized). -/
def encodeChatMessage (m : ChatMessage) : Jv :=
  .obj [("role", .str m.role), ("content", .str m.content),
        ("tool_calls", .arr (m.toolCalls.map encodeToolCallInfo)),
        ("tool_call_id", .str m.toolCallID), ("name", .str m.name),
        ("timestamp", .num m.timestamp)]

/-- Decode a `ChatMessage`. -/
def decodeChatMessage (j : Jv) : Option ChatMessage :=
  match j with
  | .obj fields =>
    match decStrField fields "role", decStrField fields "content",
          getField fields "tool_calls", decStrField fields "tool_call_id",
          decStrField fields "name", decNatField fields "timestamp" with
    | some role, some content, some (.arr tcs), some tcid, some name, some ts =>
      match decodeList decodeToolCallInfo tcs with
      | none => none
      | some toolCalls =>
        some { role := role, content := content, toolCalls := toolCalls,
               toolCallID := tcid, name := name, timestamp := ts }
    | _, _, _, _, _, _ => none
  | _ => none

/-- Encode a `Step` per its struct tags (name, content and tool_call_id
carry `omitempty`). -/
def encodeStep (s : Step) : Jv :=
  .obj ([("turn", Jv.num s.turn), ("type", Jv.str s.type)] ++
    (if s.name = "" then [] else [("name", Jv.str s.name)]) ++
    (if s.content = "" then [] else [("content", Jv.str s.content)]) ++
    (if s.toolCall = "" then [] else [("tool_call_id", Jv.str s.toolCall)]) ++
    [("timestamp", Jv.num s.timestamp)])

/-- Decode a `Step`. -/
def decodeStep (j : Jv) : Option Step :=
  match j with
  | .obj fields =>
    match decIntField fields "turn", decStrField fields "type",
          decStrField fields "name", decStrField fields "content",
          decStrField fields "tool_call_id", decNatField fields "timestamp" with
    | some turn, some type, some name, some content, some toolCall, some ts =>
      some { turn := turn, type := type, name := name, content := content,
             toolCall := toolCall, timestamp := ts }
    | _, _, _, _, _, _ => none
  | _ => none

/-- Encode `Options` per its struct tags (every field serialized;
durations are their nanosecond integers). -/
def encodeOptions (o : Options) : Jv :=
  .obj [("workspace", .str o.workspace), ("max_turns", .num o.maxTurns),
        ("max_tool_calls_per_turn", .num o.maxToolCallsPerTurn),
        ("max_consecutive_no_tool_turns", .num o.maxConsecutiveNoToolTurns),
        ("request_timeout", .num o.requestTimeout),
        ("tool_timeout", .num o.toolTimeout),
        ("require_completion_marker", .bool o.requireCompletionMarker),
        ("completion_marker", .str o.completionMarker),
        ("disable_checkpoints", .bool o.disableCheckpoints),
        ("verbose", .bool o.verbose)]

/-- Decode `Options`. -/
def decodeOptions (j : Jv) : Option Options :=
  match j with
  | .obj fields =>
    match decStrField fields "workspace", decIntField fields "max_turns",
          decIntField fields "max_tool_calls_per_turn",
          decIntField fields "max_consecutive_no_tool_turns",
          decIntField fields "request_timeout", decIntField fields "tool_timeout",
          decBoolField fields "require_completion_marker",
          decStrField fields "completion_marker",
          decBoolField fields "disable_checkpoints", decBoolField fields "verbose" with
    | some ws, some mt, some mc, some mn, some rt, some tt, some rm, some cm,
      some dc, some vb =>
      some { workspace := ws, maxTurns := mt, maxToolCallsPerTurn := mc,
             maxConsecutiveNoToolTurns := mn, requestTimeout := rt, toolTimeout := tt,
             requireCompletionMarker := rm, completionMarker := cm,
             disableCheckpoints := dc, verbose := vb }
    | _, _, _, _, _, _, _, _, _, _ => none
  | _ => none

/-- Encode a `RunState` per its struct tags (completed_at,
last_assistant_response and error carry `omitempty`). -/
def encodeRunState (s : RunState) : Jv :=
  .obj ([("run_id", Jv.str s.runID), ("goal", Jv.str s.goal),
         ("status", Jv.str s.status), ("created_at", Jv.num s.createdAt),
         ("updated_at", Jv.num s.updatedAt)] ++
    (match s.completedAt with
     | none => []
     | some t => [("completed_at", Jv.num t)]) ++
    [("turn", Jv.num s.turn),
     ("consecutive_no_tool_turns", Jv.num s.consecutiveNoToolTurns),
     ("tool_call_count", Jv.num s.toolCallCount),
     ("messages", Jv.arr (s.messages.map encodeChatMessage)),
     ("steps", Jv.arr (s.steps.map encodeStep))] ++
    (if s.lastAssistantResponse = "" then []
     else [("last_assistant_response", Jv.str s.lastAssistantResponse)]) ++
    (if s.error = "" then [] else [("error", Jv.str s.error)]) ++
    [("options", encodeOptions s.options)])

/-- Decode a `RunState`. -/
def decodeRunState (j : Jv) : Option RunState :=
  match j with
  | .obj fields =>
    match decStrField fields "run_id", decStrField fields "goal",
          decStrField fields "status", decNatField fields "created_at",
          decNatField fields "updated_at", decOptNatField fields "completed_at",
          decIntField fields "turn", decIntField fields "consecutive_no_tool_turns",
          decIntField fields "tool_call_count" with
    | some rid, some goal, some status, some ca, some ua, some compAt, some turn,
      some cn, some tcc =>
      match getField fields "messages", getField fields "steps",
            decStrField fields "last_assistant_response", decStrField fields "error",
            getField fields "options" with
      | some (.arr msgs), some (.arr steps), some lar, some err, some optsJ =>
        match decodeList decodeChatMessage msgs, decodeList decodeStep steps,
              decodeOptions optsJ with
        | some messages, some stepsV, some opts =>
          some { runID := rid, goal := goal, status := status, createdAt := ca,
                 updatedAt := ua, completedAt := compAt, turn := turn,
                 consecutiveNoToolTurns := cn, toolCallCount := tcc,
                 messages := messages, steps := stepsV,
                 lastAssistantResponse := lar, error := err, options := opts }
        | _, _, _ => none
      | _, _, _, _, _ => none
    | _, _, _, _, _, _, _, _, _ => none
  | _ => none

/-- `CheckpointStore.Save` (part_004 lines 42-58): stamps `updated_at`
with the current time, serializes, and overwrites `<run_id>.json`;
returns the updated store and the stamped state. -/
def saveCheckpoint (now : Nat) (store : List (String × Jv)) (state : RunState) :
    List (String × Jv) × RunState :=
  let stamped := { state with updatedAt := now }
  ((stamped.runID, encodeRunState stamped) ::
      store.filter (fun e => e.1 ≠ stamped.runID),
   stamped)

/-- `CheckpointStore.Load` (part_004 lines 60-76): missing file is
`NotFound`, undecodable contents are `CorruptState`. -/
def loadCheckpoint (store : List (String × Jv)) (runID : String) :
    Except String RunState :=
  if runID = "" then .error "run id is required"
  else
    match (store.find? (fun e => e.1 = runID)).map (fun e => e.2) with
    | none => .error ("read checkpoint: open " ++ runID ++ ".json: no such file or directory")
    | some j =>
      match decodeRunState j with
      | none => .error "parse checkpoint: invalid JSON"
      | some s => .ok s

/-- `Runner.Resume` (part_006 lines 122-134): load the checkpoint,
backfill an empty workspace or completion marker from the runner's
options, and re-enter the turn loop.  The in-loop checkpoint writes do
not affect the returned state and are elided. -/
def resume (env : ToolEnv) (runnerOptions : Options) (store : List (String × Jv))
    (runID : String) (responses : List (Except String ChatCompletionResult)) :
    Except String RunState :=
  match loadCheckpoint store runID with
  | .error e => .error e
  | .ok state =>
    let state :=
      if state.options.workspace = "" then
        { state with options := { state.options with workspace := runnerOptions.workspace } }
      else state
    let state :=
      if state.options.completionMarker = "" then
        { state with
            options := { state.options with
                          completionMarker := runnerOptions.completionMarker } }
      else state
    .ok (runLoop env state responses)

/-! ## Lemmas about the eval harness -/

theorem firstMissingRequired_none_iff (t : String) (l : List String) :
    firstMissingRequired t l = none ↔ ∀ r ∈ l, r ≠ "" → containsCI t r = true := by
  induction l with
  | nil => simp [firstMissingRequired]
  | cons r rest ih =>
    by_cases hr : r = ""
    · subst hr
      simp [firstMissingRequired, ih]
    · by_cases hc : containsCI t r = true
      · simp [firstMissingRequired, hr, hc, ih]
      · simp [firstMissingRequired, hr, hc]

theorem firstForbiddenPresent_none_iff (t : String) (l : List String) :
    firstForbiddenPresent t l = none ↔ ∀ b ∈ l, b ≠ "" → containsCI t b = false := by
  induction l with
  | nil => simp [firstForbiddenPresent]
  | cons b rest ih =>
    by_cases hb : b = ""
    · subst hb
      simp [firstForbiddenPresent, ih]
    · by_cases hc : containsCI t b = true
      · simp [firstForbiddenPresent, hb, hc]
      · simp [firstForbiddenPresent, hb, hc, ih]

/-- C8 counterexample: with `must_not_contain = [""]`, a completed case
whose response trivially contains the empty string still passes with
reason `"ok"` — the code skips empty banned strings, so "no
must_not_contain string occurs" is not required for a pass as the claim
states it. -/
theorem evaluateCase_empty_banned_counterexample :
    (evaluateCase { name := "", goal := "", maxTurns := 0, mustContain := [],
                    mustNotContain := [""] } "completed" "done") = (true, "ok") ∧
    containsCI "done" "" = true := by
  constructor
  · rfl
  · rfl

/-- C8 (amended): an eval case passes exactly when the final status is
`completed`, every non-empty `must_contain` string occurs as a
case-insensitive substring of the trimmed last assistant response, and no
non-empty `must_not_contain` string so occurs (empty strings in both
lists are skipped); otherwise the fail reason is `status=<status>`,
`missing required text: "..."`, or `contains forbidden text: "..."`
respectively, and the pass reason is `"ok"`. -/
theorem evaluateCase_spec (c : EvalCase) (status finalText : String) :
    ((evaluateCase c status finalText).1 = true ↔
      (status = StatusCompleted ∧
       (∀ r ∈ c.mustContain, r ≠ "" → containsCI finalText r = true) ∧
       (∀ b ∈ c.mustNotContain, b ≠ "" → containsCI finalText b = false))) ∧
    (status ≠ StatusCompleted →
      evaluateCase c status finalText = (false, "status=" ++ status)) ∧
    (∀ r, status = StatusCompleted →
      firstMissingRequired finalText c.mustContain = some r →
      evaluateCase c status finalText = (false, "missing required text: " ++ goQuote r)) ∧
    (∀ b, status = StatusCompleted →
      firstMissingRequired finalText c.mustContain = none →
      firstForbiddenPresent finalText c.mustNotContain = some b →
      evaluateCase c status finalText = (false, "contains forbidden text: " ++ goQuote b)) ∧
    ((evaluateCase c status finalText).1 = true →
      (evaluateCase c status finalText).2 = "ok") := by
  by_cases hst : status = StatusCompleted
  · subst hst
    rcases hm : firstMissingRequired finalText c.mustContain with _ | r0
    · rcases hf : firstForbiddenPresent finalText c.mustNotContain with _ | b0
      · refine ⟨?_, fun h => absurd rfl h, fun r _ h => Option.noConfusion h,
          fun b _ _ h => Option.noConfusion h, fun _ => by simp [evaluateCase, hm, hf]⟩
        constructor
        · intro _
          exact ⟨rfl, (firstMissingRequired_none_iff _ _).mp hm,
            (firstForbiddenPresent_none_iff _ _).mp hf⟩
        · intro _
          simp [evaluateCase, hm, hf]
      · refine ⟨?_, fun h => absurd rfl h, fun r _ h => Option.noConfusion h, ?_, ?_⟩
        · constructor
          · intro h
            exfalso
            simp [evaluateCase, hm, hf] at h
          · rintro ⟨-, -, hall⟩
            have h0 : firstForbiddenPresent finalText c.mustNotContain = none :=
              (firstForbiddenPresent_none_iff _ _).mpr hall
            rw [hf] at h0
            cases h0
        · intro b _ _ h
          cases h
          simp [evaluateCase, hm, hf]
        · intro h
          exfalso
          simp [evaluateCase, hm, hf] at h
    · refine ⟨?_, fun h => absurd rfl h, ?_, fun b _ h => Option.noConfusion h, ?_⟩
      · constructor
        · intro h
          exfalso
          simp [evaluateCase, hm] at h
        · rintro ⟨-, hall, -⟩
          have h0 : firstMissingRequired finalText c.mustContain = none :=
            (firstMissingRequired_none_iff _ _).mpr hall
          rw [hm] at h0
          cases h0
      · intro r _ h
        cases h
        simp [evaluateCase, hm]
      · intro h
        exfalso
        simp [evaluateCase, hm] at h
  · refine ⟨?_, ?_, fun r h => absurd h hst, fun b h => absurd h hst, ?_⟩
    · constructor
      · intro h
        exfalso
        simp [evaluateCase, hst] at h
      · rintro ⟨h, -, -⟩
        exact absurd h hst
    · intro _
      simp [evaluateCase, hst]
    · intro h
      exfalso
      simp [evaluateCase, hst] at h

/-- C8 witness: a concrete completed case with one required and one
banned string passes with reason `"ok"`. -/
theorem evaluateCase_spec_witness :
    (evaluateCase { name := "n", goal := "g", maxTurns := 0, mustContain := ["hello"],
                    mustNotContain := ["bad"] } "completed" "Hello world").1 = true :=
  (evaluateCase_spec
    { name := "n", goal := "g", maxTurns := 0, mustContain := ["hello"],
      mustNotContain := ["bad"] } "completed" "Hello world").1.mpr
    ⟨rfl, by decide, by decide⟩

/-! ## Whitespace-trimming lemmas -/

theorem dropLeadingWS_suffix (l : List Char) : dropLeadingWS l <:+ l := by
  induction l with
  | nil => exact List.suffix_refl _
  | cons c rest ih =>
    by_cases h : isGoSpace c
    · rw [dropLeadingWS, if_pos h]
      exact ih.trans (List.suffix_cons c rest)
    · rw [dropLeadingWS, if_neg h]

theorem dropLeadingWS_head_not_space (l : List Char) :
    dropLeadingWS l = [] ∨ ∃ c t, dropLeadingWS l = c :: t ∧ isGoSpace c = false := by
  induction l with
  | nil => exact .inl rfl
  | cons c rest ih =>
    by_cases h : isGoSpace c
    · rw [dropLeadingWS, if_pos h]
      exact ih
    · exact .inr ⟨c, rest, by rw [dropLeadingWS, if_neg h], by simpa using h⟩

theorem dropLeadingWS_cons_not_space (c : Char) (t : List Char) (h : isGoSpace c = false) :
    dropLeadingWS (c :: t) = c :: t := by
  rw [dropLeadingWS, if_neg (by simp [h])]

theorem dropLeadingWS_idem (l : List Char) :
    dropLeadingWS (dropLeadingWS l) = dropLeadingWS l := by
  rcases dropLeadingWS_head_not_space l with h | ⟨c, t, h, hc⟩
  · rw [h]; rfl
  · rw [h]
    exact dropLeadingWS_cons_not_space c t hc

theorem dropLeadingWS_trim_left_stable (l : List Char) :
    dropLeadingWS (dropLeadingWS (dropLeadingWS l).reverse).reverse =
      (dropLeadingWS (dropLeadingWS l).reverse).reverse := by
  rcases dropLeadingWS_head_not_space l with h0 | ⟨c, t, h0, hc⟩
  · rw [h0]; rfl
  · rw [h0]
    have hsuf : dropLeadingWS (c :: t).reverse <:+ (c :: t).reverse :=
      dropLeadingWS_suffix _
    have hpre : (dropLeadingWS (c :: t).reverse).reverse <+: c :: t := by
      have h1 := List.reverse_prefix.mpr hsuf
      simpa using h1
    rcases hx : (dropLeadingWS (c :: t).reverse).reverse with _ | ⟨c0, r0⟩
    · rfl
    · rw [hx] at hpre
      obtain ⟨u, hu⟩ := hpre
      have hc0 : c0 = c := by
        have := congrArg List.head? hu
        simpa using this
      subst hc0
      exact dropLeadingWS_cons_not_space c0 r0 hc

theorem goTrimSpace_idem (s : String) : goTrimSpace (goTrimSpace s) = goTrimSpace s := by
  unfold goTrimSpace
  congr 1
  show (dropLeadingWS
      (dropLeadingWS ((dropLeadingWS (dropLeadingWS s.data).reverse).reverse)).reverse).reverse =
    (dropLeadingWS (dropLeadingWS s.data).reverse).reverse
  rw [dropLeadingWS_trim_left_stable, List.reverse_reverse]
  exact dropLeadingWS_trim_left_stable s.data

/-! ## Turn-loop lemmas -/

theorem isCompletionResponse_iff (c : String) (opts : Options)
    (hm : opts.completionMarker ≠ "") :
    isCompletionResponse c opts = true ↔
      (goTrimSpace c ≠ "" ∧
       (goContains (goToUpper (goTrimSpace c)) (goToUpper opts.completionMarker) = true ∨
        opts.requireCompletionMarker = false)) := by
  unfold isCompletionResponse
  by_cases h0 : goTrimSpace c = "" <;>
    by_cases h1 :
      goContains (goToUpper (goTrimSpace c)) (goToUpper opts.completionMarker) = true <;>
    simp [h0, h1, hm, Bool.not_eq_true']

theorem dispatchToolCalls_cons (env : ToolEnv) (tc : ToolCallResult)
    (rest : List ToolCallResult) (s : RunState) :
    dispatchToolCalls env (tc :: rest) s =
      dispatchToolCalls env rest
        { s with messages := s.messages ++ [(executeToolCall env s.turn tc).1],
                 steps := s.steps ++ [(executeToolCall env s.turn tc).2],
                 toolCallCount := s.toolCallCount + 1 } := rfl

theorem dispatchToolCalls_spec (env : ToolEnv) (tcs : List ToolCallResult) (s : RunState) :
    dispatchToolCalls env tcs s =
      { s with
        messages := s.messages ++ tcs.map (fun tc => (executeToolCall env s.turn tc).1),
        steps := s.steps ++ tcs.map (fun tc => (executeToolCall env s.turn tc).2),
        toolCallCount := s.toolCallCount + tcs.length } := by
  induction tcs generalizing s with
  | nil => simp [dispatchToolCalls]
  | cons tc rest ih =>
    rw [dispatchToolCalls_cons, ih]
    simp [List.append_assoc]
    omega

theorem runTurn_no_tools_complete (env : ToolEnv) (s : RunState) (content : String)
    (hc : isCompletionResponse (goTrimSpace content) s.options = true) :
    runTurn env s (.ok { content := content, toolCalls := [] }) =
      .finished (completeState 0
        { s with
          turn := s.turn + 1, status := StatusRunning,
          consecutiveNoToolTurns := s.consecutiveNoToolTurns + 1,
          messages := s.messages ++ [assistantMessage content []],
          lastAssistantResponse := goTrimSpace content,
          steps := s.steps ++ [assistantStep (s.turn + 1) content] }) := by
  simp [runTurn, hc]

theorem runTurn_no_tools_noprogress (env : ToolEnv) (s : RunState) (content : String)
    (hc : isCompletionResponse (goTrimSpace content) s.options = false)
    (hn : s.consecutiveNoToolTurns + 1 ≥ s.options.maxConsecutiveNoToolTurns) :
    runTurn env s (.ok { content := content, toolCalls := [] }) =
      .finished
        { s with
          turn := s.turn + 1, status := StatusNoProgressStopped,
          completedAt := some 0,
          consecutiveNoToolTurns := s.consecutiveNoToolTurns + 1,
          messages := s.messages ++ [assistantMessage content []],
          lastAssistantResponse := goTrimSpace content,
          steps := s.steps ++ [assistantStep (s.turn + 1) content] } := by
  simp [runTurn, hc, hn]

theorem runTurn_no_tools_continue (env : ToolEnv) (s : RunState) (content : String)
    (hc : isCompletionResponse (goTrimSpace content) s.options = false)
    (hn : ¬(s.consecutiveNoToolTurns + 1 ≥ s.options.maxConsecutiveNoToolTurns)) :
    runTurn env s (.ok { content := content, toolCalls := [] }) =
      .next
        { s with
          turn := s.turn + 1, status := StatusRunning,
          consecutiveNoToolTurns := s.consecutiveNoToolTurns + 1,
          messages := (s.messages ++ [assistantMessage content []]) ++
            [{ role := "user", content := buildContinuePrompt s.options, toolCalls := [],
               toolCallID := "", name := "", timestamp := 0 }],
          lastAssistantResponse := goTrimSpace content,
          steps := s.steps ++ [assistantStep (s.turn + 1) content] } := by
  simp [runTurn, hc, hn]

theorem runTurn_tools (env : ToolEnv) (s : RunState) (content : String)
    (tcs : List ToolCallResult) (h : tcs ≠ []) :
    runTurn env s (.ok { content := content, toolCalls := tcs }) =
      .next (dispatchToolCalls env (tcs.take s.options.maxToolCallsPerTurn.toNat)
        { s with
          turn := s.turn + 1, status := StatusRunning,
          messages := s.messages ++ [assistantMessage content tcs],
          lastAssistantResponse := goTrimSpace content,
          steps := s.steps ++ [assistantStep (s.turn + 1) content],
          consecutiveNoToolTurns := 0 }) := by
  cases tcs with
  | nil => exact absurd rfl h
  | cons tc rest => rfl

/-- C1: the claim's pairing invariant fails at this input, and the code
contradicts the repository's own tool-calling contract ("one tool
response per tool_call_id", part_015 line 49).  With
`max_tool_calls_per_turn = 1` and a provider turn returning two tool
calls, the appended assistant message carries both ToolCallRefs
(`convertToolCalls` runs before the cap is applied) while exactly one
Tool message follows it before the next provider request. -/
theorem assistant_refs_exceed_tool_messages :
    ((runTurn
        { exec := fun _ _ => .returned { success := true, error := "", result := Jv.str "ok" } }
        (NewRunState "r1" 0 "goal"
          { DefaultOptions with workspace := "/w", maxToolCallsPerTurn := 1 })
        (.ok { content := "",
               toolCalls := [{ id := "c1", name := "dev_list_files", arguments := "\x7b\x7d" },
                             { id := "c2", name := "dev_list_files", arguments := "\x7b\x7d" }] })
      ).state.messages.map (fun m => (m.role, m.toolCallID, m.toolCalls.length))) =
      [("assistant", "", 2), ("tool", "c1", 0)] := by decide

/-- C3 counterexample: with `require_completion_marker = false` and an
empty (or all-whitespace) assistant text on a tool-less turn,
`isCompletionResponse` is false and the turn does not finalize the run
as completed — it continues with status `running`. -/
theorem empty_text_does_not_complete :
    isCompletionResponse ""
        { DefaultOptions with workspace := "/w", requireCompletionMarker := false } = false ∧
    ((runTurn
        { exec := fun _ _ => .returned { success := true, error := "", result := Jv.str "ok" } }
        (NewRunState "r2" 0 "goal"
          { DefaultOptions with workspace := "/w", requireCompletionMarker := false })
        (.ok { content := "", toolCalls := [] })).state.status = StatusRunning) := by
  constructor
  · rfl
  · rfl

/-- C3 (amended): a tool-less model turn finalizes the run as completed
exactly when the trimmed assistant text is non-empty AND either the
completion marker occurs case-insensitively in it or
`require_completion_marker` is false; in particular an empty assistant
text never completes the run, whatever the options. -/
theorem runTurn_completion_iff (env : ToolEnv) (s : RunState) (content : String)
    (hm : s.options.completionMarker ≠ "") :
    (∃ s', runTurn env s (.ok { content := content, toolCalls := [] }) = .finished s' ∧
           s'.status = StatusCompleted) ↔
    (goTrimSpace content ≠ "" ∧
     (goContains (goToUpper (goTrimSpace content)) (goToUpper s.options.completionMarker) = true ∨
      s.options.requireCompletionMarker = false)) := by
  have hiff := isCompletionResponse_iff (goTrimSpace content) s.options hm
  rw [goTrimSpace_idem] at hiff
  rw [← hiff]
  by_cases hc : isCompletionResponse (goTrimSpace content) s.options = true
  · exact iff_of_true ⟨_, runTurn_no_tools_complete env s content hc, rfl⟩ hc
  · have hc' : isCompletionResponse (goTrimSpace content) s.options = false := by
      simpa using hc
    refine iff_of_false ?_ hc
    rintro ⟨s', hrun, hst⟩
    by_cases hn : s.consecutiveNoToolTurns + 1 ≥ s.options.maxConsecutiveNoToolTurns
    · rw [runTurn_no_tools_noprogress env s content hc' hn] at hrun
      cases hrun
      simp [StatusNoProgressStopped, StatusCompleted] at hst
    · rw [runTurn_no_tools_continue env s content hc' hn] at hrun
      exact TurnOutcome.noConfusion hrun

/-- C3 witness: with the default marker and `require_completion_marker`
true, the assistant text `"TASK_COMPLETE: finished"` on a tool-less turn
completes the run. -/
theorem runTurn_completion_iff_witness :
    ∃ s', runTurn
        { exec := fun _ _ => .returned { success := true, error := "", result := Jv.str "ok" } }
        (NewRunState "r3" 0 "goal" { DefaultOptions with workspace := "/w" })
        (.ok { content := "TASK_COMPLETE: finished", toolCalls := [] }) = .finished s' ∧
      s'.status = StatusCompleted :=
  (runTurn_completion_iff
      { exec := fun _ _ => .returned { success := true, error := "", result := Jv.str "ok" } }
      (NewRunState "r3" 0 "goal" { DefaultOptions with workspace := "/w" })
      "TASK_COMPLETE: finished" (by decide)).mpr (by decide)

/-- C4: when a tool call's raw argument string is not valid JSON, the
skill executor is never consulted (the produced Tool message is a value
independent of it), the Tool message pairs the call's id and carries the
`fmt.Sprintf` payload `{"error": true, "message": "invalid tool
arguments JSON", "tool": <quoted name>}`, and a turn carrying tool calls
always continues the loop with `.next` rather than terminating the
run. -/
theorem executeToolCall_invalid_arguments (env : ToolEnv) (turn : Int)
    (tc : ToolCallResult) (h : jsonValid tc.arguments = false) :
    executeToolCall env turn tc =
      ({ role := "tool", content := invalidArgsPayload tc.name, toolCalls := [],
         toolCallID := tc.id, name := tc.name, timestamp := 0 },
       { turn := turn, type := "tool", name := tc.name,
         content := truncateForStep (invalidArgsPayload tc.name), toolCall := tc.id,
         timestamp := 0 }) ∧
    (∀ s content tcs, tcs ≠ [] →
      ∃ s', runTurn env s (.ok { content := content, toolCalls := tcs }) = .next s') := by
  constructor
  · simp [executeToolCall, h]
  · intro s content tcs hne
    exact ⟨_, runTurn_tools env s content tcs hne⟩

/-- C4 witness: the literal arguments `{"path":}` are invalid JSON and
produce the error Tool message for `dev_read_file`. -/
theorem executeToolCall_invalid_arguments_witness :
    jsonValid "\x7b\"path\":\x7d" = false ∧
    (executeToolCall
        { exec := fun _ _ => .returned { success := true, error := "", result := Jv.str "ok" } }
        1 { id := "c1", name := "dev_read_file", arguments := "\x7b\"path\":\x7d" }).1.content =
      invalidArgsPayload "dev_read_file" := by
  refine ⟨by decide, ?_⟩
  rw [(executeToolCall_invalid_arguments
      { exec := fun _ _ => .returned { success := true, error := "", result := Jv.str "ok" } }
      1 { id := "c1", name := "dev_read_file", arguments := "\x7b\"path\":\x7d" }
      (by decide)).1]

/-! ## Checkpoint encoding round-trip lemmas -/

theorem decodeToolCallInfo_encode (c : ToolCallInfo) :
    decodeToolCallInfo (encodeToolCallInfo c) = some c := rfl

theorem decodeList_encode {α : Type} (dec : Jv → Option α) (enc : α → Jv)
    (h : ∀ x, dec (enc x) = some x) (l : List α) :
    decodeList dec (l.map enc) = some l := by
  induction l with
  | nil => rfl
  | cons x rest ih => simp [decodeList, h, ih]

theorem decodeChatMessage_encode (m : ChatMessage) :
    decodeChatMessage (encodeChatMessage m) = some m := by
  have ht : ¬((m.timestamp : Int) < 0) := Int.not_lt.mpr (Int.natCast_nonneg _)
  simp [encodeChatMessage, decodeChatMessage, decStrField, decNatField, getField,
    List.find?, decodeList_encode decodeToolCallInfo encodeToolCallInfo
      decodeToolCallInfo_encode, ht]

theorem decodeStep_encode (s : Step) : decodeStep (encodeStep s) = some s := by
  obtain ⟨t, ty, nm, ct, tc, ts⟩ := s
  have ht : ¬((ts : Int) < 0) := Int.not_lt.mpr (Int.natCast_nonneg _)
  by_cases h1 : nm = "" <;> by_cases h2 : ct = "" <;> by_cases h3 : tc = "" <;>
    simp [encodeStep, decodeStep, decStrField, decIntField, decNatField, getField,
      List.find?, h1, h2, h3, ht]

theorem decodeOptions_encode (o : Options) : decodeOptions (encodeOptions o) = some o := by
  simp [encodeOptions, decodeOptions, decStrField, decIntField, decBoolField, getField,
    List.find?]

theorem decodeRunState_encode (s : RunState) :
    decodeRunState (encodeRunState s) = some s := by
  obtain ⟨rid, goal, status, ca, ua, compAt, turn, cn, tcc, msgs, steps, lar, err, opts⟩ := s
  have hca : ¬((ca : Int) < 0) := Int.not_lt.mpr (Int.natCast_nonneg _)
  have hua : ¬((ua : Int) < 0) := Int.not_lt.mpr (Int.natCast_nonneg _)
  rcases compAt with _ | t <;> by_cases h1 : lar = "" <;> by_cases h2 : err = "" <;>
  · first
    | (have hct : ¬((t : Int) < 0) := Int.not_lt.mpr (Int.natCast_nonneg _)
       simp [encodeRunState, decodeRunState, decStrField, decIntField, decNatField,
         decOptNatField, getField, List.find?, h1, h2, hca, hua, hct,
         decodeList_encode decodeChatMessage encodeChatMessage decodeChatMessage_encode,
         decodeList_encode decodeStep encodeStep decodeStep_encode, decodeOptions_encode])
    | simp [encodeRunState, decodeRunState, decStrField, decIntField, decNatField,
        decOptNatField, getField, List.find?, h1, h2, hca, hua,
        decodeList_encode decodeChatMessage encodeChatMessage decodeChatMessage_encode,
        decodeList_encode decodeStep encodeStep decodeStep_encode, decodeOptions_encode]

/-- C6: a successful Save followed by Load on the same run id returns
exactly the saved state: the state with `updated_at` stamped by Save and
every other field — goal, status, turn, counters, messages, steps,
options, timestamps — unchanged. -/
theorem save_load_roundtrip (now : Nat) (store : List (String × Jv)) (s : RunState)
    (h : s.runID ≠ "") :
    loadCheckpoint (saveCheckpoint now store s).1 s.runID =
      .ok { s with updatedAt := now } := by
  simp [saveCheckpoint, loadCheckpoint, h, List.find?, decodeRunState_encode]

/-- C6 witness: a concrete state with a message, a step, a completion
timestamp and a final response round-trips through Save and Load. -/
theorem save_load_roundtrip_witness :
    loadCheckpoint
        (saveCheckpoint 5 []
          { NewRunState "20260101-000000.000000000" 3 "say done" DefaultOptions with
            status := StatusCompleted, completedAt := some 4, turn := 1,
            toolCallCount := 2, lastAssistantResponse := "TASK_COMPLETE: ok",
            messages := [{ role := "assistant", content := "TASK_COMPLETE: ok",
                           toolCalls := [{ id := "c1", name := "dev_list_files",
                                           arguments := "\x7b\x7d" }],
                           toolCallID := "", name := "", timestamp := 4 }],
            steps := [{ turn := 1, type := "assistant", name := "",
                        content := "TASK_COMPLETE: ok", toolCall := "",
                        timestamp := 4 }] }).1
        "20260101-000000.000000000" =
      .ok { NewRunState "20260101-000000.000000000" 3 "say done" DefaultOptions with
            status := StatusCompleted, completedAt := some 4, turn := 1,
            toolCallCount := 2, lastAssistantResponse := "TASK_COMPLETE: ok",
            messages := [{ role := "assistant", content := "TASK_COMPLETE: ok",
                           toolCalls := [{ id := "c1", name := "dev_list_files",
                                           arguments := "\x7b\x7d" }],
                           toolCallID := "", name := "", timestamp := 4 }],
            steps := [{ turn := 1, type := "assistant", name := "",
                        content := "TASK_COMPLETE: ok", toolCall := "",
                        timestamp := 4 }],
            updatedAt := 5 } :=
  save_load_roundtrip 5 []
    { NewRunState "20260101-000000.000000000" 3 "say done" DefaultOptions with
      status := StatusCompleted, completedAt := some 4, turn := 1,
      toolCallCount := 2, lastAssistantResponse := "TASK_COMPLETE: ok",
      messages := [{ role := "assistant", content := "TASK_COMPLETE: ok",
                     toolCalls := [{ id := "c1", name := "dev_list_files",
                                     arguments := "\x7b\x7d" }],
                     toolCallID := "", name := "", timestamp := 4 }],
      steps := [{ turn := 1, type := "assistant", name := "",
                  content := "TASK_COMPLETE: ok", toolCall := "",
                  timestamp := 4 }] } (by decide)

/-! ## Run-loop status lemmas -/

theorem runTurn_status_irrel (env : ToolEnv) (s : RunState) (x : String)
    (r : Except String ChatCompletionResult) :
    runTurn env { s with status := x } r = runTurn env s r := rfl

theorem runTurn_turn_increment (env : ToolEnv) (s : RunState)
    (r : Except String ChatCompletionResult) :
    (runTurn env s r).state.turn = s.turn + 1 := by
  cases r with
  | error e => rfl
  | ok result =>
    rcases result with ⟨content, tcs⟩
    cases tcs with
    | nil =>
      by_cases hc : isCompletionResponse (goTrimSpace content) s.options = true
      · rw [runTurn_no_tools_complete env s content hc]
        rfl
      · have hc' : isCompletionResponse (goTrimSpace content) s.options = false := by
          simpa using hc
        by_cases hn : s.consecutiveNoToolTurns + 1 ≥ s.options.maxConsecutiveNoToolTurns
        · rw [runTurn_no_tools_noprogress env s content hc' hn]
          rfl
        · rw [runTurn_no_tools_continue env s content hc' hn]
          rfl
    | cons tc rest =>
      rw [runTurn_tools env s content (tc :: rest) (by simp)]
      simp [TurnOutcome.state, dispatchToolCalls_spec]

/-- C9: `Resume` re-enters the loop without inspecting the stored
status: a checkpoint saved in any terminal status with `turn <
max_turns` is resumed, the loop's behaviour is identical for every
stored status (the loop head overwrites it with `running`), and a new
turn is executed (the turn counter advances). -/
theorem resume_ignores_terminal_status (env : ToolEnv) (ropts : Options) (s : RunState)
    (r : Except String ChatCompletionResult)
    (rest : List (Except String ChatCompletionResult))
    (hid : s.runID ≠ "") (hws : s.options.workspace ≠ "")
    (hcm : s.options.completionMarker ≠ "")
    (hterm : s.status = StatusCompleted ∨ s.status = StatusFailed ∨
             s.status = StatusNoProgressStopped ∨ s.status = StatusMaxTurnsReached)
    (hturn : s.turn < s.options.maxTurns) :
    resume env ropts [(s.runID, encodeRunState s)] s.runID (r :: rest) =
      .ok (runLoop env s (r :: rest)) ∧
    (∀ x, runLoop env { s with status := x } (r :: rest) = runLoop env s (r :: rest)) ∧
    (runTurn env s r).state.turn = s.turn + 1 := by
  refine ⟨?_, fun x => rfl, runTurn_turn_increment env s r⟩
  simp [resume, loadCheckpoint, hid, List.find?, decodeRunState_encode, hws, hcm]

/-- C9 witness: a checkpoint stored as `no_progress_stopped` at turn 1
of 12 resumes, runs a fresh turn, and completes on the marker. -/
theorem resume_ignores_terminal_status_witness :
    resume { exec := fun _ _ => .returned { success := true, error := "", result := Jv.str "ok" } }
        DefaultOptions
        [("r9", encodeRunState
            { NewRunState "r9" 0 "goal" { DefaultOptions with workspace := "/w" } with
              status := StatusNoProgressStopped, turn := 1 })]
        "r9" [.ok { content := "TASK_COMPLETE: done", toolCalls := [] }] =
      .ok (runLoop
        { exec := fun _ _ => .returned { success := true, error := "", result := Jv.str "ok" } }
        { NewRunState "r9" 0 "goal" { DefaultOptions with workspace := "/w" } with
          status := StatusNoProgressStopped, turn := 1 }
        [.ok { content := "TASK_COMPLETE: done", toolCalls := [] }]) :=
  (resume_ignores_terminal_status
    { exec := fun _ _ => .returned { success := true, error := "", result := Jv.str "ok" } }
    DefaultOptions
    { NewRunState "r9" 0 "goal" { DefaultOptions with workspace := "/w" } with
      status := StatusNoProgressStopped, turn := 1 }
    (.ok { content := "TASK_COMPLETE: done", toolCalls := [] }) [] (by decide) (by decide)
    (by decide) (.inr (.inr (.inl rfl))) (by decide)).1

/-! ## Stream tool-call accumulation lemmas -/

theorem updateToolCall_find?_self (l : List XAIToolCall) (tc : XAIToolCall) :
    (updateToolCall l tc).find? (fun c => c.id = tc.id) = some tc := by
  induction l with
  | nil => simp [updateToolCall]
  | cons x rest ih =>
    by_cases h : x.id = tc.id
    · simp [updateToolCall, h, List.find?]
    · simp [updateToolCall, h, List.find?, ih]

theorem updateToolCall_find?_other (l : List XAIToolCall) (tc : XAIToolCall) (i : String)
    (h : i ≠ tc.id) :
    (updateToolCall l tc).find? (fun c => c.id = i) = l.find? (fun c => c.id = i) := by
  induction l with
  | nil => simp [updateToolCall, List.find?, Ne.symm h]
  | cons x rest ih =>
    by_cases hx : x.id = tc.id
    · have hxi : ¬(x.id = i) := by rw [hx]; exact Ne.symm h
      rw [updateToolCall, if_pos hx]
      simp [List.find?, Ne.symm h, hxi]
    · rw [updateToolCall, if_neg hx]
      by_cases hxi : x.id = i
      · simp [List.find?, hxi]
      · simp [List.find?, hxi, ih]

theorem updateToolCall_id_mem (l : List XAIToolCall) (tc : XAIToolCall) (i : String)
    (h : i ∈ (updateToolCall l tc).map (fun c => c.id)) :
    i ∈ l.map (fun c => c.id) ∨ i = tc.id := by
  induction l with
  | nil =>
    simp [updateToolCall] at h
    exact .inr h
  | cons x rest ih =>
    by_cases hx : x.id = tc.id
    · simp [updateToolCall, hx] at h
      rcases h with h | h
      · exact .inr h
      · exact .inl (by simp [h])
    · simp [updateToolCall, hx] at h
      rcases h with h | h
      · exact .inl (by simp [h])
      · rcases ih (by simpa using h) with h' | h'
        · exact .inl (by simp; exact .inr (by simpa using h'))
        · exact .inr h'

theorem updateToolCall_ids_nodup (l : List XAIToolCall) (tc : XAIToolCall)
    (h : (l.map (fun c => c.id)).Nodup) :
    ((updateToolCall l tc).map (fun c => c.id)).Nodup := by
  induction l with
  | nil => simp [updateToolCall]
  | cons x rest ih =>
    rw [List.map_cons, List.nodup_cons] at h
    by_cases hx : x.id = tc.id
    · rw [updateToolCall]
      simp only [if_pos hx, List.map_cons, List.nodup_cons]
      exact ⟨hx ▸ h.1, h.2⟩
    · rw [updateToolCall]
      simp only [if_neg hx, List.map_cons, List.nodup_cons]
      refine ⟨?_, ih h.2⟩
      intro hmem
      rcases updateToolCall_id_mem rest tc x.id hmem with h' | h'
      · exact h.1 h'
      · exact hx h'

theorem ids_nodup_filter_len (l : List XAIToolCall)
    (h : (l.map (fun c => c.id)).Nodup) (i : String) :
    (l.filter (fun c => c.id = i)).length ≤ 1 := by
  induction l with
  | nil => simp
  | cons x rest ih =>
    rw [List.map_cons, List.nodup_cons] at h
    by_cases hx : x.id = i
    · have hrest : rest.filter (fun c => c.id = i) = [] := by
        rw [List.filter_eq_nil_iff]
        intro c hc hci
        exact h.1 (by
          subst hx
          simp only [List.mem_map]
          exact ⟨c, hc, by simpa using hci.symm⟩)
      simp [List.filter, hx, hrest]
    · simp only [List.filter, hx, decide_eq_true_eq]
      simpa [hx] using ih h.2

theorem foldl_update_nodup (ds : List XAIToolCall) :
    ∀ acc : List XAIToolCall, (acc.map (fun c => c.id)).Nodup →
      ((ds.foldl updateToolCall acc).map (fun c => c.id)).Nodup := by
  induction ds with
  | nil => intro acc h; simpa using h
  | cons d rest ih =>
    intro acc h
    exact ih (updateToolCall acc d) (updateToolCall_ids_nodup acc d h)

theorem foldl_update_find? (ds : List XAIToolCall) :
    ∀ (acc : List XAIToolCall) (i : String),
      (ds.foldl updateToolCall acc).find? (fun c => c.id = i) =
        ds.foldl (fun o c => if c.id = i then some c else o)
          (acc.find? (fun c => c.id = i)) := by
  induction ds with
  | nil => intro acc i; rfl
  | cons d rest ih =>
    intro acc i
    rw [List.foldl_cons, List.foldl_cons, ih]
    congr 1
    by_cases hd : d.id = i
    · subst hd
      rw [if_pos rfl]
      exact updateToolCall_find?_self acc d
    · rw [if_neg hd]
      exact updateToolCall_find?_other acc d i (fun he => hd he.symm)

/-- C5: within one turn, the stream accumulator presents for dispatch at
most one call per `tool_call_id`, and the surviving entry is exactly the
later (last) occurrence the provider emitted for that id — the later
occurrence replaces the earlier in place before dispatch; the conversion
to the dispatch list preserves entries, order and fields one-to-one. -/
theorem accumToolCalls_dedup (deltas : List XAIToolCall) (i : String) :
    ((accumToolCalls deltas).filter (fun c => c.id = i)).length ≤ 1 ∧
    (accumToolCalls deltas).find? (fun c => c.id = i) =
      deltas.foldl (fun o c => if c.id = i then some c else o) none ∧
    convertStreamToolCalls (accumToolCalls deltas) =
      (accumToolCalls deltas).map
        (fun tc => { id := tc.id, name := tc.fnName, arguments := tc.fnArgs }) := by
  refine ⟨?_, ?_, rfl⟩
  · exact ids_nodup_filter_len _ (foldl_update_nodup deltas [] (by simp)) i
  · simpa using foldl_update_find? deltas [] i

/-- C10: a command that is executed (non-blank after trimming) never
yields a handler error, whatever the execution outcome — a non-zero
exit status, a `CombinedOutput` error, or a hit of the inner wall-clock
timeout are all reported inside the returned result object (`exit_code`,
`timed_out`, optional `error` string), with the captured output retained
truncated to 12,000 bytes; the run loop therefore records such a command
failure as a successful tool result (the serialized object, never an
error payload). -/
theorem devRunCommand_reports_failures_in_result (workspace command : String)
    (timeoutArg : Option Int) (runCmd : Int → CmdOutcome)
    (h : goTrimSpace command ≠ "") :
    (∀ rc : Int → CmdOutcome,
      ∃ v, devRunCommandHandler workspace command timeoutArg rc = .ok v) ∧
    (let o := runCmd (effectiveCommandTimeout timeoutArg)
     let outputStr : String :=
       if o.output.data.length > maxCommandOutput
       then ⟨o.output.data.take maxCommandOutput⟩ else o.output
     let result : Jv := Jv.obj
       ([("command", Jv.str command)] ++
        (match o.runError with
         | some e => [("error", Jv.str e)]
         | none => []) ++
        [("exit_code", Jv.num (if o.hasProcessState then o.processExitCode else 0)),
         ("output", Jv.str outputStr),
         ("timed_out", Jv.bool o.timedOut),
         ("truncated", Jv.bool (decide (o.output.data.length > maxCommandOutput))),
         ("workspace", Jv.str workspace)])
     devRunCommandHandler workspace command timeoutArg runCmd = .ok result ∧
     outputStr.data.length ≤ maxCommandOutput ∧
     formatToolResult "dev_run_command"
         (registryOutcome (devRunCommandHandler workspace command timeoutArg runCmd)) =
       marshalJv result) := by
  refine ⟨?_, ?_, ?_, ?_⟩
  · intro rc
    rw [devRunCommandHandler, if_neg h]
    exact ⟨_, rfl⟩
  · rw [devRunCommandHandler, if_neg h]
  · by_cases ho :
      (runCmd (effectiveCommandTimeout timeoutArg)).output.data.length > maxCommandOutput
    · simp only [if_pos ho, List.length_take]
      omega
    · simp only [if_neg ho]
      omega
  · rw [devRunCommandHandler, if_neg h]
    rfl

/-- C10 witness: `sh -lc false` exiting with status 1 and a
`CombinedOutput` error still returns a result object, not a handler
error. -/
theorem devRunCommand_reports_failures_in_result_witness :
    ∃ v, devRunCommandHandler "/w" "false" none
        (fun _ => { output := "", hasProcessState := true, processExitCode := 1,
                    runError := some "exit status 1", timedOut := false }) = .ok v :=
  (devRunCommand_reports_failures_in_result "/w" "false" none
    (fun _ => { output := "", hasProcessState := true, processExitCode := 1,
                runError := some "exit status 1", timedOut := false })
    (by decide)).1
    (fun _ => { output := "", hasProcessState := true, processExitCode := 1,
                runError := some "exit status 1", timedOut := false })

/-! ## dev_read_file lemmas -/

theorem splitNlAux_ne_nil (l : List Char) : ∀ cur, splitNlAux cur l ≠ [] := by
  induction l with
  | nil => intro cur; simp [splitNlAux]
  | cons c rest ih =>
    intro cur
    by_cases h : c = '\n' <;> simp [splitNlAux, h, ih]

/-- C7: on a readable in-workspace file, `dev_read_file` keeps at most
200,000 bytes of the file (`truncated` is set exactly when the file is
larger), splits the kept bytes by `\n`, clamps `start_line`/`end_line`
into the valid line range (defaults start=1, end=last), and returns the
inclusive line slice between them together with `total_lines` and
`truncated`; the clamped indices always satisfy
`1 ≤ start ≤ end ≤ total`. -/
theorem devReadFile_spec (workspace : String) (fs : List (String × String))
    (path : String) (startArg endArg : Option Int) (target data : String)
    (hp : path ≠ "")
    (hres : resolveWorkspacePath workspace path = .ok target)
    (hfs : fsRead fs target = some data) :
    ∃ r : ReadResult,
      devReadFileHandler workspace fs path startArg endArg = .ok r ∧
      (let lines := goSplitNl (readKept data)
       let total : Int := lines.length
       let e1 := readEndLine endArg total
       let s1 := readStartLine startArg e1
       r = { path := path, workspace := workspace, startLine := s1, endLine := e1,
             totalLines := total,
             truncated := decide (data.data.length > maxReadBytes),
             content := joinNl ((lines.drop (s1 - 1).toNat).take
               (e1 - s1 + 1).toNat) }) ∧
      (readKept data).data.length ≤ maxReadBytes ∧
      1 ≤ r.startLine ∧ r.startLine ≤ r.endLine ∧ r.endLine ≤ r.totalLines := by
  have hne : goSplitNl (readKept data) ≠ [] := splitNlAux_ne_nil _ _
  have htot : (0 : Int) < ((goSplitNl (readKept data)).length : Int) := by
    have := List.length_pos.mpr hne
    exact_mod_cast this
  have hf : 1 ≤ readStartFloor startArg := by
    unfold readStartFloor
    split_ifs <;> omega
  have hEa : 1 ≤ readEndLine endArg ((goSplitNl (readKept data)).length : Int) ∧
      readEndLine endArg ((goSplitNl (readKept data)).length : Int) ≤
        ((goSplitNl (readKept data)).length : Int) := by
    unfold readEndLine
    by_cases hc1 : endArg.getD 0 ≤ 0 <;> by_cases hc2 :
        endArg.getD 0 > ((goSplitNl (readKept data)).length : Int) <;>
      simp [hc1, hc2] <;> omega
  have hbounds :
      1 ≤ readStartLine startArg
            (readEndLine endArg ((goSplitNl (readKept data)).length : Int)) ∧
      readStartLine startArg
          (readEndLine endArg ((goSplitNl (readKept data)).length : Int)) ≤
        readEndLine endArg ((goSplitNl (readKept data)).length : Int) ∧
      readEndLine endArg ((goSplitNl (readKept data)).length : Int) ≤
        ((goSplitNl (readKept data)).length : Int) := by
    refine ⟨?_, ?_, hEa.2⟩ <;>
    · unfold readStartLine
      split_ifs <;> omega
  refine ⟨_, ?_, rfl, ?_, hbounds.1, hbounds.2.1, hbounds.2.2⟩
  · simp only [devReadFileHandler, if_neg hp, hres, hfs]
    rw [if_pos htot]
  · unfold readKept
    by_cases hd : data.data.length > maxReadBytes
    · simp only [if_pos hd, List.length_take]
      omega
    · simp only [if_neg hd]
      omega

/-- C7 witness: reading lines 2..99 of a three-line file clamps the end
to 3 and returns lines 2-3. -/
theorem devReadFile_spec_witness :
    ∃ r : ReadResult,
      devReadFileHandler "/w" [("/w/a.txt", "l1\nl2\nl3")] "a.txt" (some 2) (some 99) =
        .ok r :=
  match devReadFile_spec "/w" [("/w/a.txt", "l1\nl2\nl3")] "a.txt" (some 2) (some 99)
    "/w/a.txt" "l1\nl2\nl3" (by decide) rfl rfl with
  | ⟨r, h, _⟩ => ⟨r, h⟩

/-! ## Path component lemmas (for the containment guarantee) -/

theorem splitCompsAux_wf (l : List Char) :
    ∀ cur, '/' ∉ cur → ∀ c ∈ splitCompsAux cur l, c ≠ "" ∧ '/' ∉ c.data := by
  induction l with
  | nil =>
    intro cur hcur c hc
    by_cases h : cur.isEmpty
    · simp [splitCompsAux, h] at hc
    · simp only [splitCompsAux, h, Bool.false_eq_true, if_false, List.mem_singleton] at hc
      subst hc
      constructor
      · intro he
        have hrev : cur.reverse = [] := congrArg String.data he
        rw [List.reverse_eq_nil_iff] at hrev
        simp [hrev] at h
      · simpa using hcur
  | cons a rest ih =>
    intro cur hcur c hc
    by_cases ha : a = '/'
    · by_cases h : cur.isEmpty
      · rw [splitCompsAux, if_pos ha, if_pos h] at hc
        exact ih [] (by simp) c hc
      · rw [splitCompsAux, if_pos ha, if_neg h] at hc
        rcases List.mem_cons.mp hc with hc | hc
        · subst hc
          constructor
          · intro he
            have hrev : cur.reverse = [] := congrArg String.data he
            rw [List.reverse_eq_nil_iff] at hrev
            simp [hrev] at h
          · simpa using hcur
        · exact ih [] (by simp) c hc
    · rw [splitCompsAux, if_neg ha] at hc
      refine ih (a :: cur) ?_ c hc
      intro hmem
      rcases List.mem_cons.mp hmem with h | h
      · exact ha h.symm
      · exact hcur h

theorem cleanAux_mem (rooted : Bool) (l : List String) :
    ∀ out, ∀ c ∈ cleanAux rooted out l, c ∈ out ∨ (c ∈ l ∧ c ≠ ".") ∨ c = ".." := by
  induction l with
  | nil =>
    intro out c hc
    simp only [cleanAux] at hc
    exact .inl (by simpa using hc)
  | cons a rest ih =>
    intro out c hc
    by_cases ha : a = "."
    · simp only [cleanAux, if_pos ha] at hc
      rcases ih out c hc with h | h | h
      · exact .inl h
      · exact .inr (.inl ⟨.tail _ h.1, h.2⟩)
      · exact .inr (.inr h)
    · by_cases ha2 : a = ".."
      · rcases out with _ | ⟨top, out'⟩
        · simp only [cleanAux, if_neg ha, if_pos ha2] at hc
          by_cases hr : rooted = true
          · rw [if_pos hr] at hc
            rcases ih [] c hc with h | h | h
            · simp at h
            · exact .inr (.inl ⟨.tail _ h.1, h.2⟩)
            · exact .inr (.inr h)
          · rw [if_neg hr] at hc
            rcases ih [".."] c hc with h | h | h
            · exact .inr (.inr (by simpa using h))
            · exact .inr (.inl ⟨.tail _ h.1, h.2⟩)
            · exact .inr (.inr h)
        · simp only [cleanAux, if_neg ha, if_pos ha2] at hc
          by_cases ht : top = ".."
          · rw [if_pos ht] at hc
            rcases ih (".." :: top :: out') c hc with h | h | h
            · rcases List.mem_cons.mp h with h' | h'
              · exact .inr (.inr h')
              · exact .inl h'
            · exact .inr (.inl ⟨.tail _ h.1, h.2⟩)
            · exact .inr (.inr h)
          · rw [if_neg ht] at hc
            rcases ih out' c hc with h | h | h
            · exact .inl (.tail _ h)
            · exact .inr (.inl ⟨.tail _ h.1, h.2⟩)
            · exact .inr (.inr h)
      · simp only [cleanAux, if_neg ha, if_neg ha2] at hc
        rcases ih (a :: out) c hc with h | h | h
        · rcases List.mem_cons.mp h with h' | h'
          · exact .inr (.inl ⟨h' ▸ List.mem_cons_self a rest, h' ▸ ha⟩)
          · exact .inl h'
        · exact .inr (.inl ⟨.tail _ h.1, h.2⟩)
        · exact .inr (.inr h)

theorem cleanAux_no_dot (rooted : Bool) (l : List String) (out : List String)
    (hout : "." ∉ out) : "." ∉ cleanAux rooted out l := by
  intro hmem
  rcases cleanAux_mem rooted l out "." hmem with h | h | h
  · exact hout h
  · exact h.2 rfl
  · exact absurd h (by decide)

theorem cleanAux_rooted_no_dotdot (l : List String) :
    ∀ out, ".." ∉ out → ".." ∉ cleanAux true out l := by
  induction l with
  | nil =>
    intro out hout hmem
    simp only [cleanAux] at hmem
    exact hout (by simpa using hmem)
  | cons a rest ih =>
    intro out hout hmem
    by_cases ha : a = "."
    · simp only [cleanAux, if_pos ha] at hmem
      exact ih out hout hmem
    · by_cases ha2 : a = ".."
      · rcases out with _ | ⟨top, out'⟩
        · simp only [cleanAux, if_neg ha, if_pos ha2, if_pos rfl] at hmem
          exact ih [] (by simp) hmem
        · simp only [cleanAux, if_neg ha, if_pos ha2] at hmem
          have ht : ¬(top = "..") := fun h => hout (h ▸ List.mem_cons_self top out')
          rw [if_neg ht] at hmem
          exact ih out' (fun h => hout (.tail _ h)) hmem
      · simp only [cleanAux, if_neg ha, if_neg ha2] at hmem
        refine ih (a :: out) ?_ hmem
        intro h
        rcases List.mem_cons.mp h with h' | h'
        · exact ha2 h'.symm
        · exact hout h'

theorem cleanAux_fixed (rooted : Bool) (l : List String)
    (hl : ∀ c ∈ l, c ≠ "." ∧ c ≠ "..") :
    ∀ out, cleanAux rooted out l = out.reverse ++ l := by
  induction l with
  | nil => intro out; simp [cleanAux]
  | cons a rest ih =>
    intro out
    have ha := hl a (.head _)
    simp only [cleanAux, if_neg ha.1, if_neg ha.2]
    rw [ih (fun c hc => hl c (.tail _ hc)) (a :: out)]
    simp

theorem joinComps_data_cons (c d : String) (t : List String) :
    (joinComps (c :: d :: t)).data = c.data ++ '/' :: (joinComps (d :: t)).data := by
  rw [joinComps]
  simp

theorem splitCompsAux_append_no_slash (cs : List Char) (h : '/' ∉ cs) :
    ∀ cur tail, splitCompsAux cur (cs ++ tail) = splitCompsAux (cs.reverse ++ cur) tail := by
  induction cs with
  | nil => intro cur tail; simp
  | cons c cs' ih =>
    intro cur tail
    have hc : ¬(c = '/') := fun he => h (he ▸ List.mem_cons_self c cs')
    rw [List.cons_append, splitCompsAux, if_neg hc,
      ih (fun hm => h (.tail _ hm)) (c :: cur) tail]
    simp

theorem splitCompsAux_single (cs : List Char) (hne : cs ≠ []) (h : '/' ∉ cs) :
    splitCompsAux [] cs = [⟨cs⟩] := by
  have h1 := splitCompsAux_append_no_slash cs h [] []
  simp only [List.append_nil] at h1
  rw [h1, splitCompsAux]
  have hne2 : ¬(cs.reverse.isEmpty) := by
    simp only [List.isEmpty_iff, List.reverse_eq_nil_iff]
    exact hne
  rw [if_neg hne2, List.reverse_reverse]

theorem splitComps_joinComps (cs : List String)
    (h : ∀ c ∈ cs, c ≠ "" ∧ '/' ∉ c.data) :
    splitCompsAux [] (joinComps cs).data = cs := by
  induction cs with
  | nil => rfl
  | cons c rest ih =>
    rcases rest with _ | ⟨d, t⟩
    · have hc := h c (.head _)
      have hdne : c.data ≠ [] := by
        intro hd
        exact hc.1 (by cases c; simp_all)
      rw [show joinComps [c] = c from rfl, splitCompsAux_single c.data hdne hc.2]
    · have hc := h c (.head _)
      have hdne : c.data ≠ [] := by
        intro hd
        exact hc.1 (by cases c; simp_all)
      rw [joinComps_data_cons,
        splitCompsAux_append_no_slash c.data hc.2 [] ('/' :: (joinComps (d :: t)).data),
        splitCompsAux, if_pos rfl]
      have hne2 : ¬((c.data.reverse ++ []).isEmpty) := by
        simp only [List.append_nil, List.isEmpty_iff, List.reverse_eq_nil_iff]
        exact hdne
      rw [if_neg hne2, ih (fun x hx => h x (.tail _ hx))]
      simp only [List.append_nil, List.reverse_reverse]

theorem splitComponents_renderAbs (comps : List String)
    (h : ∀ c ∈ comps, c ≠ "" ∧ '/' ∉ c.data) :
    splitComponents (renderPath true comps) = comps := by
  show splitCompsAux [] (("/" ++ joinComps comps) : String).data = comps
  rw [String.data_append, show ("/" : String).data = ['/'] from rfl,
    List.singleton_append, splitCompsAux, if_pos rfl, if_pos List.isEmpty_nil]
  exact splitComps_joinComps comps h

theorem isAbs_iff (s : String) : isAbs s = true ↔ s.data.head? = some '/' := by
  unfold isAbs
  exact beq_iff_eq

theorem isAbs_append (a b : String) (h : isAbs a = true) : isAbs (a ++ b) = true := by
  rw [isAbs_iff] at h ⊢
  rw [String.data_append]
  rcases hd : a.data with _ | ⟨c, t⟩
  · rw [hd] at h
    simp at h
  · rw [hd] at h
    simp only [List.head?_cons, Option.some.injEq] at h
    simp [h]

theorem isAbs_renderAbs (comps : List String) : isAbs (renderPath true comps) = true := by
  rw [isAbs_iff]
  show (("/" ++ joinComps comps) : String).data.head? = some '/'
  rw [String.data_append, show ("/" : String).data = ['/'] from rfl]
  rfl

theorem goJoin_of_ne (a b : String) (ha : a ≠ "") (hb : b ≠ "") :
    goJoin a b = clean (a ++ "/" ++ b) := by
  simp [goJoin, ha, hb]

theorem cleanParts_rooted_no_dots (S : List String) :
    ∀ c ∈ cleanParts true S, c ≠ "." ∧ c ≠ ".." := by
  intro c hc
  exact ⟨fun he => cleanAux_no_dot true S [] (by simp) (he ▸ hc),
         fun he => cleanAux_rooted_no_dotdot S [] (by simp) (he ▸ hc)⟩

theorem cleanParts_rooted_idem (S : List String) :
    cleanParts true (cleanParts true S) = cleanParts true S := by
  show cleanAux true [] (cleanParts true S) = cleanParts true S
  rw [cleanAux_fixed true _ (cleanParts_rooted_no_dots S) []]
  simp

theorem cleanParts_abs_wf (x : String) :
    ∀ c ∈ cleanParts true (splitComponents x),
      c ≠ "" ∧ '/' ∉ c.data ∧ c ≠ "." ∧ c ≠ ".." := by
  intro c hc
  have hdots := cleanParts_rooted_no_dots (splitComponents x) c hc
  rcases cleanAux_mem true (splitComponents x) [] c hc with h0 | h0 | h0
  · simp at h0
  · have hw := splitCompsAux_wf x.data [] (by simp) c h0.1
    exact ⟨hw.1, hw.2, hdots.1, hdots.2⟩
  · exact absurd h0 hdots.2

theorem clean_eq_renderAbs (x : String) (h : isAbs x = true) :
    clean x = renderPath true (cleanParts true (splitComponents x)) := by
  unfold clean
  rw [h]

theorem splitComponents_clean_abs (x : String) (h : isAbs x = true) :
    splitComponents (clean x) = cleanParts true (splitComponents x) := by
  rw [clean_eq_renderAbs x h]
  exact splitComponents_renderAbs _
    (fun c hc => ⟨(cleanParts_abs_wf x c hc).1, (cleanParts_abs_wf x c hc).2.1⟩)

theorem isAbs_clean (x : String) (h : isAbs x = true) : isAbs (clean x) = true := by
  rw [clean_eq_renderAbs x h]
  exact isAbs_renderAbs _

theorem clean_ne_empty_of_abs (x : String) (h : isAbs x = true) : clean x ≠ "" := by
  intro he
  have h2 := isAbs_clean x h
  rw [he] at h2
  simp [isAbs] at h2

theorem dropCommonPrefix_suffixes (b t : List String) :
    (dropCommonPrefix b t).1 <:+ b ∧ (dropCommonPrefix b t).2 <:+ t := by
  induction b generalizing t with
  | nil =>
    simp only [dropCommonPrefix]
    exact ⟨List.nil_suffix, List.suffix_refl _⟩
  | cons x bs ih =>
    cases t with
    | nil =>
      simp only [dropCommonPrefix]
      exact ⟨List.suffix_refl _, List.nil_suffix⟩
    | cons y ts =>
      by_cases h : x = y
      · simp only [dropCommonPrefix, if_pos h]
        exact ⟨(ih ts).1.trans (List.suffix_cons x bs), (ih ts).2.trans (List.suffix_cons y ts)⟩
      · simp only [dropCommonPrefix, if_neg h]
        exact ⟨List.suffix_refl _, List.suffix_refl _⟩

theorem dropCommonPrefix_nil_fst (b t : List String)
    (h : (dropCommonPrefix b t).1 = []) :
    b ++ (dropCommonPrefix b t).2 = t := by
  induction b generalizing t with
  | nil => simp only [dropCommonPrefix]; rfl
  | cons x bs ih =>
    cases t with
    | nil => simp [dropCommonPrefix] at h
    | cons y ts =>
      by_cases hxy : x = y
      · simp only [dropCommonPrefix, if_pos hxy] at h ⊢
        rw [List.cons_append, ih ts h, hxy]
      · simp [dropCommonPrefix, hxy] at h

theorem replicate_dotdot_escapes (n : Nat) (hn : n ≠ 0) (trest : List String) :
    joinComps (List.replicate n ".." ++ trest) = ".." ∨
    goStartsWith (joinComps (List.replicate n ".." ++ trest)) "../" = true := by
  rcases n with _ | m
  · exact absurd rfl hn
  · rw [List.replicate_succ, List.cons_append]
    rcases hx : List.replicate m ".." ++ trest with _ | ⟨z, zs⟩
    · exact .inl rfl
    · right
      rw [joinComps]
      show (("../") : String).data.isPrefixOf
        ((".." : String) ++ "/" ++ joinComps (z :: zs)).data = true
      rw [String.data_append, String.data_append]
      simp [List.isPrefixOf]

theorem joinComps_wf_no_escape (trest : List String)
    (h : ∀ c ∈ trest, c ≠ "" ∧ '/' ∉ c.data ∧ c ≠ "..") :
    ¬(joinComps trest = ".." ∨ goStartsWith (joinComps trest) "../" = true) := by
  rintro (he | he)
  · rcases trest with _ | ⟨c, _ | ⟨d, t⟩⟩
    · exact absurd he (by decide)
    · exact (h c (.head _)).2.2 he
    · have hmem : '/' ∈ (joinComps (c :: d :: t)).data := by
        rw [joinComps_data_cons]
        simp
      rw [he] at hmem
      exact absurd hmem (by decide)
  · rcases trest with _ | ⟨c, _ | ⟨d, t⟩⟩
    · exact absurd he (by decide)
    · have hpre : (("../") : String).data <+: c.data := by
        rw [← List.isPrefixOf_iff_prefix]
        exact he
      have hmem : '/' ∈ c.data := hpre.subset (by decide)
      exact (h c (.head _)).2.1 hmem
    · have hc := h c (.head _)
      have hpre : (("../") : String).data <+: (joinComps (c :: d :: t)).data := by
        rw [← List.isPrefixOf_iff_prefix]
        exact he
      rw [joinComps_data_cons] at hpre
      obtain ⟨u, hu⟩ := hpre
      rcases hcd : c.data with _ | ⟨a1, _ | ⟨a2, _ | ⟨a3, r3⟩⟩⟩
      · exact hc.1 (by cases c; simp_all)
      · rw [hcd] at hu
        simp only [List.cons_append, List.nil_append] at hu
        have h2 := hu
        injection h2 with h2a h2b
        injection h2b with h2c h2d
        exact absurd h2c.symm (by decide)
      · rw [hcd] at hu
        simp only [List.cons_append, List.nil_append] at hu
        injection hu with h1a h1b
        injection h1b with h2a h2b
        have : c = ".." := by
          cases c
          simp at hcd
          simp [hcd, ← h1a, ← h2a]
        exact hc.2.2 this
      · rw [hcd] at hu
        simp only [List.cons_append] at hu
        injection hu with h1a h1b
        injection h1b with h2a h2b
        injection h2b with h3a h3b
        have : '/' ∈ c.data := by
          rw [hcd, ← h3a]
          simp
        exact hc.2.1 this

theorem goRel_clean_abs (x y : String) (hx : isAbs x = true) (hy : isAbs y = true) :
    (cleanParts true (splitComponents x) = cleanParts true (splitComponents y) →
      goRel (clean x) (clean y) = .ok ".") ∧
    (cleanParts true (splitComponents x) ≠ cleanParts true (splitComponents y) →
      goRel (clean x) (clean y) = .ok
        (if (dropCommonPrefix (cleanParts true (splitComponents x))
              (cleanParts true (splitComponents y))).1.isEmpty
         then joinComps (dropCommonPrefix (cleanParts true (splitComponents x))
              (cleanParts true (splitComponents y))).2
         else joinComps (List.replicate
              (dropCommonPrefix (cleanParts true (splitComponents x))
                (cleanParts true (splitComponents y))).1.length ".." ++
              (dropCommonPrefix (cleanParts true (splitComponents x))
                (cleanParts true (splitComponents y))).2))) := by
  have hbx := isAbs_clean x hx
  have hby := isAbs_clean y hy
  have hBx : cleanParts true (splitComponents (clean x)) =
      cleanParts true (splitComponents x) := by
    rw [splitComponents_clean_abs x hx, cleanParts_rooted_idem]
  have hTy : cleanParts true (splitComponents (clean y)) =
      cleanParts true (splitComponents y) := by
    rw [splitComponents_clean_abs y hy, cleanParts_rooted_idem]
  constructor
  · intro hBT
    simp only [goRel]
    rw [hbx, hby, hBx, hTy, if_pos ⟨rfl, hBT⟩]
  · intro hBT
    simp only [goRel]
    rw [hbx, hby, hBx, hTy, if_neg (fun hc => hBT hc.2), if_neg (by simp)]
    have hsuf := (dropCommonPrefix_suffixes (cleanParts true (splitComponents x))
      (cleanParts true (splitComponents y))).1
    have hnodd : ¬((dropCommonPrefix (cleanParts true (splitComponents x))
        (cleanParts true (splitComponents y))).1.head? = some "..") := by
      intro hh
      have hmem : ".." ∈ (dropCommonPrefix (cleanParts true (splitComponents x))
          (cleanParts true (splitComponents y))).1 := by
        rcases hp : (dropCommonPrefix (cleanParts true (splitComponents x))
            (cleanParts true (splitComponents y))).1 with _ | ⟨z, zs⟩
        · rw [hp] at hh
          simp at hh
        · rw [hp] at hh
          simp only [List.head?_cons, Option.some.injEq] at hh
          subst hh
          exact .head _
      exact (cleanParts_abs_wf x ".." (hsuf.subset hmem)).2.2.2 rfl
    rw [if_neg hnodd]
    by_cases hi : (dropCommonPrefix (cleanParts true (splitComponents x))
        (cleanParts true (splitComponents y))).1.isEmpty = true
    · rw [if_pos hi, if_pos hi]
    · rw [if_neg hi, if_neg hi]

/-- C2: for the absolute workspace root, every dev_* path argument P is
resolved to `clean(join(workspace, P))` (or `clean(P)` when P is
absolute); `Rel` itself never fails, the call proceeds exactly when the
relative path from the workspace to that candidate does not begin with
a `..` component, a successful candidate lies inside the workspace (the
cleaned workspace's components are a prefix of the candidate's), and on
a path-escape error the write handler fails with that error leaving the
filesystem untouched. -/
theorem resolveWorkspacePath_containment (workspace P : String)
    (hws : isAbs workspace = true) :
    (∃ rel, goRel (clean workspace) (workspaceCandidate workspace P) = .ok rel ∧
      ((rel = ".." ∨ goStartsWith rel "../" = true) ↔
        resolveWorkspacePath workspace P =
          .error ("path escapes workspace: " ++ (if P = "" then "." else P))) ∧
      (¬(rel = ".." ∨ goStartsWith rel "../" = true) →
        resolveWorkspacePath workspace P = .ok (workspaceCandidate workspace P) ∧
        splitComponents (clean workspace) <+:
          splitComponents (workspaceCandidate workspace P))) ∧
    (∀ fs content appendMode e, P ≠ "" →
      resolveWorkspacePath workspace P = .error e →
      devWriteFileHandler workspace fs P content appendMode = (.error e, fs)) := by
  have hinput : (if P = "" then "." else P) ≠ "" := by
    by_cases hP : P = "" <;> simp [hP]
  have hcand : ∃ y, isAbs y = true ∧ workspaceCandidate workspace P = clean y := by
    by_cases hab : isAbs (if P = "" then "." else P) = true
    · exact ⟨(if P = "" then "." else P), hab, by simp [workspaceCandidate, hab]⟩
    · refine ⟨clean workspace ++ "/" ++ (if P = "" then "." else P),
        isAbs_append _ _ (isAbs_append _ _ (isAbs_clean workspace hws)), ?_⟩
      simp only [workspaceCandidate, hab, if_false]
      exact goJoin_of_ne _ _ (clean_ne_empty_of_abs workspace hws) hinput
  obtain ⟨y, hy, hcy⟩ := hcand
  have hsplitB := splitComponents_clean_abs workspace hws
  have hsplitT := splitComponents_clean_abs y hy
  have hrelpair := goRel_clean_abs workspace y hws hy
  constructor
  · by_cases hBT : cleanParts true (splitComponents workspace) =
        cleanParts true (splitComponents y)
    · -- identical cleaned paths: rel = "."
      have hrel : goRel (clean workspace) (workspaceCandidate workspace P) = .ok "." := by
        rw [hcy]
        exact hrelpair.1 hBT
      have hok : resolveWorkspacePath workspace P = .ok (workspaceCandidate workspace P) := by
        simp only [resolveWorkspacePath]
        rw [hrel]
        rfl
      refine ⟨".", hrel, ?_, ?_⟩
      · constructor
        · intro h
          exact absurd h (by decide)
        · intro h
          rw [hok] at h
          exact Except.noConfusion h
      · intro _
        refine ⟨hok, ?_⟩
        rw [hcy, hsplitB, hsplitT, hBT]
    · -- differing cleaned paths
      have hwfT := cleanParts_abs_wf y
      by_cases hp1 : (dropCommonPrefix (cleanParts true (splitComponents workspace))
          (cleanParts true (splitComponents y))).1.isEmpty = true
      · -- contained: rel is the remaining target components
        have hrel : goRel (clean workspace) (workspaceCandidate workspace P) =
            .ok (joinComps (dropCommonPrefix (cleanParts true (splitComponents workspace))
              (cleanParts true (splitComponents y))).2) := by
          rw [hcy, hrelpair.2 hBT, if_pos hp1]
        have hsufT := (dropCommonPrefix_suffixes
          (cleanParts true (splitComponents workspace))
          (cleanParts true (splitComponents y))).2
        have hnoesc := joinComps_wf_no_escape
          (dropCommonPrefix (cleanParts true (splitComponents workspace))
            (cleanParts true (splitComponents y))).2
          (fun c hc => ⟨(hwfT c (hsufT.subset hc)).1, (hwfT c (hsufT.subset hc)).2.1,
            (hwfT c (hsufT.subset hc)).2.2.2⟩)
        have hok : resolveWorkspacePath workspace P =
            .ok (workspaceCandidate workspace P) := by
          simp only [resolveWorkspacePath]
          rw [hrel]
          dsimp only
          rw [if_neg (by
            simp only [Bool.or_eq_true, decide_eq_true_eq]
            exact hnoesc)]
        refine ⟨_, hrel, ?_, ?_⟩
        · constructor
          · intro h
            exact absurd h hnoesc
          · intro h
            rw [hok] at h
            exact Except.noConfusion h
        · intro _
          refine ⟨hok, ?_⟩
          rw [hcy, hsplitB, hsplitT]
          have hfst : (dropCommonPrefix (cleanParts true (splitComponents workspace))
              (cleanParts true (splitComponents y))).1 = [] := by
            simpa using hp1
          exact ⟨_, dropCommonPrefix_nil_fst _ _ hfst⟩
      · -- escaping: rel climbs with ".."
        have hrel : goRel (clean workspace) (workspaceCandidate workspace P) =
            .ok (joinComps (List.replicate
              (dropCommonPrefix (cleanParts true (splitComponents workspace))
                (cleanParts true (splitComponents y))).1.length ".." ++
              (dropCommonPrefix (cleanParts true (splitComponents workspace))
                (cleanParts true (splitComponents y))).2)) := by
          rw [hcy, hrelpair.2 hBT, if_neg hp1]
        have hn : (dropCommonPrefix (cleanParts true (splitComponents workspace))
            (cleanParts true (splitComponents y))).1.length ≠ 0 := by
          simp only [List.isEmpty_iff] at hp1
          simpa using hp1
        have hesc := replicate_dotdot_escapes _ hn
          (dropCommonPrefix (cleanParts true (splitComponents workspace))
            (cleanParts true (splitComponents y))).2
        have herr : resolveWorkspacePath workspace P =
            .error ("path escapes workspace: " ++ (if P = "" then "." else P)) := by
          simp only [resolveWorkspacePath]
          rw [hrel]
          dsimp only
          rw [if_pos (by
            simp only [Bool.or_eq_true, decide_eq_true_eq]
            exact hesc)]
        refine ⟨_, hrel, ?_, ?_⟩
        · exact iff_of_true hesc herr
        · intro h
          exact absurd hesc h
  · intro fs content appendMode e hP hres
    simp only [devWriteFileHandler, if_neg hP, hres]

/-- C2 witness: in workspace `/w`, `../outside.txt` is rejected with a
path-escape error and the write handler leaves the filesystem
untouched, while `subdir/file.txt` resolves inside the workspace. -/
theorem resolveWorkspacePath_containment_witness :
    resolveWorkspacePath "/w" "../outside.txt" =
      .error "path escapes workspace: ../outside.txt" ∧
    devWriteFileHandler "/w" [] "../outside.txt" "boom" false =
      (.error "path escapes workspace: ../outside.txt", []) ∧
    resolveWorkspacePath "/w" "subdir/file.txt" = .ok "/w/subdir/file.txt" := by
  refine ⟨rfl, ?_, rfl⟩
  exact (resolveWorkspacePath_containment "/w" "../outside.txt" (by decide)).2
    [] "boom" false "path escapes workspace: ../outside.txt" (by decide) rfl

end Celeste
